import Mathlib

/-!
Verification development for the EraAI conversation-budgeting and
adaptive-invocation pipeline.

The Python sources are shallowly embedded:
* Python strings are modelled as `List Char` (`PyStr`); `s[:n]` is
  `List.take n`, `s[-n:]` is `pyLastN` (note Python's clamping semantics),
  `len` is `List.length`.
* Machine integers are `Nat`/`Int`; `time.time()` floats are `ℚ`;
  `int(x * 0.8)` on a non-negative int is `x * 4 / 5` (floor division).
* Fallible Python code is modelled with `Except`; a `try/except` boundary
  is a `match` on the `Except` value.
* `dict` copies (`dict(msg)`) are value copies; the two places where
  `AIAssistant.chat` mutates a dict that is shared between `messages`
  (a shallow `list.copy()`) and `conversation_history` are modelled
  explicitly by updating both lists.
-/

/-- A Python string, modelled as its list of characters. -/
abbrev PyStr := List Char

/-- Shorthand for embedding a Lean string literal as a `PyStr`. -/
def pyStr (s : String) : PyStr := s.toList

/-- Python `s[-n:]` for `n > 0`: the trailing `n` characters (the whole
string when `n ≥ len(s)`). -/
def pyLastN (s : PyStr) (n : Nat) : PyStr := s.drop (s.length - n)

/-- Python `list.insert(i, x)` for `0 ≤ i` (clamped to the length, which
`List.take`/`List.drop` already do). -/
def pyInsert (i : Nat) (x : α) (l : List α) : List α := l.take i ++ x :: l.drop i

/-- `sep.join(parts)` from Python. -/
def pyJoin (sep : PyStr) : List PyStr → PyStr
  | [] => []
  | [p] => p
  | p :: rest => p ++ sep ++ pyJoin sep rest

/-- Configuration values read from `src/config.py` (defaults of the
`Config` class; every field is overridable by environment variables, so
theorems quantify over the whole structure). -/
structure Config where
  RESPONSE_MAX_TOKENS : Nat := 600
  MAX_PROMPT_CHARS : Nat := 28000
  RAG_CONTEXT_MAX_CHARS : Nat := 6000
  MAX_HISTORY_MESSAGES : Nat := 16
  OPENAI_RETRY_MAX_ATTEMPTS : Nat := 3
  OPENAI_RETRY_BASE_DELAY_SEC : ℚ := 2
  OPENAI_RPM_LIMIT : Nat := 0
  RPM_WINDOW_SEC : ℚ := 60
  OPENAI_TPM_LIMIT : Nat := 0
  TPM_WINDOW_SEC : ℚ := 60
deriving DecidableEq

/-- Values crossing the function-calling boundary (`Dict[str, Any]`
arguments and results).  Modelled flatly: the claims only ever inspect
string payloads. -/
inductive FCValue where
  | str (s : PyStr)
  | num (n : Int)
  | boolean (b : Bool)
  | null
deriving DecidableEq

/-- The `arguments` member of a function-call object: either a raw JSON
string (as delivered by the backend) that still needs `json.loads`, or an
already-parsed mapping. -/
inductive ArgsVal where
  | rawStr (s : PyStr)
  | mapping (m : List (PyStr × FCValue))
deriving DecidableEq

/-- A function-call request dict `{name, arguments}`; `name` is `Option`
because `dict.get("name")` yields `None` when absent. -/
structure FunctionCallDict where
  name : Option PyStr
  arguments : ArgsVal
deriving DecidableEq

/-- One message dict of the conversation (a *Turn*): `role`, `content`
(possibly `None`), and the extra keys used by the function-calling round
trip. -/
structure Turn where
  role : PyStr
  content : Option PyStr
  name : Option PyStr := none
  functionCall : Option FunctionCallDict := none
deriving DecidableEq

/-- `len(msg.get("content") or "")`. -/
def contentLen (m : Turn) : Nat := (m.content.getD []).length

/-- Total content length of a message list (`sum(len(content))`). -/
def totalContentLen (l : List Turn) : Nat := (l.map contentLen).sum

/-- The newest-to-oldest accumulation loop of `_trim_messages` /
`_shrink_messages` (`ai_assistant.py` lines 173-190, `llm_client.py`
lines 258-274).  The argument list is `reversed(recent_history)`;
`used` is the running character total.  On the first message that does
not fit the loop `break`s, except that when nothing has been kept yet a
non-empty newest message is kept truncated to the budget. -/
def keepNewestAux (budget : Nat) (used : Nat) : List Turn → List Turn
  | [] => []
  | m :: rest =>
    let c := m.content.getD []
    if used + c.length ≤ budget then m :: keepNewestAux budget (used + c.length) rest
    else []

/-- Entry point of the loop: distinguished first iteration where
`kept_reversed` is still empty (the truncation branch can only fire
there, because the loop breaks at the first non-fitting message). -/
def keepNewest (budget : Nat) : List Turn → List Turn
  | [] => []
  | m :: rest =>
    let c := m.content.getD []
    if c.length ≤ budget then m :: keepNewestAux budget c.length rest
    else if 0 < c.length then [{ m with content := some (c.take budget) }]
    else []

/-- `system_msg` of `_trim_messages`: the first message when its role is
`"system"`. -/
def trimSystem (messages : List Turn) : Option Turn :=
  match messages with
  | m :: _ => if m.role = pyStr "system" then some m else none
  | [] => none

/-- `history` of `_trim_messages`: the messages with the leading system
turn (if any) split off. -/
def trimHistory (messages : List Turn) : List Turn :=
  match messages with
  | m :: rest => if m.role = pyStr "system" then rest else messages
  | [] => []

/-- `recent_history = history[-max(1, MAX_HISTORY_MESSAGES):]`. -/
def recentHistory (cfg : Config) (messages : List Turn) : List Turn :=
  let history := trimHistory messages
  history.drop (history.length - max 1 cfg.MAX_HISTORY_MESSAGES)

/-- `kept_history`: the char-budget loop run newest-to-oldest, restored
to chronological order. -/
def keptHistory (cfg : Config) (messages : List Turn) : List Turn :=
  (keepNewest cfg.MAX_PROMPT_CHARS (recentHistory cfg messages).reverse).reverse

/-- `AIAssistant._trim_messages` (`ai_assistant.py` lines 162-207).
Splits off the system turn, caps the history by count and then by the
soft character budget preferring the newest turns, and re-attaches the
system turn whole, truncated to the remaining budget, or truncated to a
128-character floor when no budget remains. -/
def trimMessages (cfg : Config) (messages : List Turn) : List Turn :=
  match messages with
  | [] => []
  | _ =>
    let budget := cfg.MAX_PROMPT_CHARS
    let kept := keptHistory cfg messages
    match trimSystem messages with
    | none => kept
    | some sm =>
      let remaining := budget - totalContentLen kept
      let sysContent := sm.content.getD []
      if remaining < sysContent.length ∧ 0 < remaining then
        { sm with content := some (sysContent.take remaining) } :: kept
      else if remaining = 0 then
        { sm with content := some (sysContent.take 128) } :: kept
      else
        sm :: kept

/-- `LLMClient._shrink_messages` (`llm_client.py` lines 249-289) is a
verbatim duplicate of `AIAssistant._trim_messages` (same split, same
count cap, same newest-first budget loop, same system re-attachment), so
it is embedded as the same function. -/
def shrinkMessages (cfg : Config) (messages : List Turn) : List Turn :=
  trimMessages cfg messages

/-- `LLMClient._estimate_message_tokens` (`llm_client.py` lines 343-354):
`0` for an empty list, otherwise `max(1, (Σ (len(content) + 20)) // 4)`
(20 characters of per-message overhead, 4 characters per token). -/
def estimateMessageTokens (messages : List Turn) : Nat :=
  match messages with
  | [] => 0
  | _ => max 1 ((messages.foldl (fun acc m => acc + contentLen m + 20) 0) / 4)

/-- The amount passed to `_throttle_tokens_if_needed` in
`LLMClient.chat_completion` (lines 60-62):
`_estimate_message_tokens(messages) + (max_tokens or 0)`; on a `Nat`
token cap, `max_tokens or 0` is the identity. -/
def throttleRequestAmount (messages : List Turn) (maxTokens : Nat) : Nat :=
  estimateMessageTokens messages + maxTokens

/-- `AIAssistant._update_summary` (`ai_assistant.py` lines 448-457):
append `"User: <u>\nAssistant: <a>\n"`; a previously empty summary keeps
the *leading* 1200 characters of the record, a non-empty one keeps the
*trailing* 1200 characters of the concatenation. -/
def updateSummary (summary user assistant : PyStr) : PyStr :=
  let maxLen := 1200
  let addition := pyStr "User: " ++ user ++ pyStr "\nAssistant: " ++ assistant ++ pyStr "\n"
  if summary = [] then addition.take maxLen
  else pyLastN (summary ++ addition) maxLen

/-- The record appended per completed turn by `_update_summary`. -/
def summaryRecord (user assistant : PyStr) : PyStr :=
  pyStr "User: " ++ user ++ pyStr "\nAssistant: " ++ assistant ++ pyStr "\n"

/-- `RAGSystem.get_relevant_context` (`rag_system.py` lines 155-190),
given the page contents of the documents returned by `search_similar`
(the empty list also stands for the internal `except` path, which
returns `""`): format each document as `"Document i:\n<text>"`, join
with blank lines, and hard-cap at `RAG_CONTEXT_MAX_CHARS`. -/
def getRelevantContext (cfg : Config) (docs : List PyStr) : PyStr :=
  match docs with
  | [] => []
  | _ =>
    let context := pyJoin (pyStr "\n\n")
      ((List.range docs.length).zip docs |>.map fun p =>
        pyStr "Document " ++ pyStr (toString (p.1 + 1)) ++ pyStr ":\n" ++ p.2)
    if cfg.RAG_CONTEXT_MAX_CHARS < context.length then
      context.take cfg.RAG_CONTEXT_MAX_CHARS
    else context

/-- `needle in haystack` on Python strings: contiguous-substring test. -/
def pyContains (haystack needle : PyStr) : Bool :=
  (List.range (haystack.length + 1)).any fun i => needle.isPrefixOf (haystack.drop i)

/-- The capacity-exceeded classification of `LLMClient.chat_completion`
(line 113): `"rate_limit" in message or "429" in message or
"tokens per min" in message or "Request too large" in message`. -/
def isCapacitySignal (message : PyStr) : Bool :=
  pyContains message (pyStr "rate_limit") || pyContains message (pyStr "429") ||
  pyContains message (pyStr "tokens per min") || pyContains message (pyStr "Request too large")

/-- The response-token-cap reduction applied on a capacity retry
(line 119): `max_tokens = max(128, int(max_tokens * 0.8))`; on a
non-negative int, `int(x * 0.8)` is `⌊0.8·x⌋ = x·4/5` (`Nat` floor
division). -/
def capStep (cap : Nat) : Nat := max 128 (cap * 4 / 5)

/-- A backend chat-completion response (`llm_client.py` lines 103-109):
`content`, optional `function_call` (already normalised to dict form),
plus the `usage`/`model` fields the caller forwards. -/
structure Response where
  content : Option PyStr
  functionCall : Option FunctionCallDict := none
  usage : Option FCValue := none
  model : Option PyStr := none
deriving DecidableEq

/-- Outcome of one `self.client.chat.completions.create` attempt:
a response, or a raised exception with message `str(e)`. -/
inductive SendOutcome where
  | success (r : Response)
  | failure (message : PyStr)
deriving DecidableEq

/-- The retry loop of `LLMClient.chat_completion` (lines 52-131),
restricted to the state the claims are about (the throttle sleeps and
the network call are external effects; `send` is the outcome of attempt
`attempt` on the currently shaped messages).  `fuel` is the loop
variant `OPENAI_RETRY_MAX_ATTEMPTS - attempt`, so the `while attempt <
max_attempts` guard is `fuel = 0`.  Returns the list of
`(backoff_sleep, reduced_cap)` pairs produced by capacity retries and
the final outcome (`.ok` response or `.error` raised message). -/
def chatCompletionGo (cfg : Config) (send : Nat → List Turn → SendOutcome) :
    Nat → Nat → Nat → List Turn → Option PyStr →
    List (ℚ × Nat) × Except PyStr Response
  | 0, _, _, _, lastError =>
    -- `raise last_error if last_error else RuntimeError("Chat completion failed")`
    ([], .error (lastError.getD (pyStr "Chat completion failed")))
  | fuel + 1, attempt, maxTokens, messages, _ =>
    let messages := shrinkMessages cfg messages
    match send attempt messages with
    | .success r => ([], .ok r)
    | .failure message =>
      if isCapacitySignal message then
        let attempt' := attempt + 1
        let backoff := cfg.OPENAI_RETRY_BASE_DELAY_SEC * 2 ^ (attempt' - 1)
        let maxTokens' := capStep maxTokens
        let messages' := shrinkMessages cfg messages
        let step := chatCompletionGo cfg send fuel attempt' maxTokens' messages' (some message)
        ((backoff, maxTokens') :: step.1, step.2)
      else ([], .error message)

/-- `LLMClient.chat_completion` entered with `attempt = 0`,
`last_error = None` and the configured retry budget. -/
def chatCompletionLoop (cfg : Config) (send : Nat → List Turn → SendOutcome)
    (maxTokens0 : Nat) (messages : List Turn) : List (ℚ × Nat) × Except PyStr Response :=
  chatCompletionGo cfg send cfg.OPENAI_RETRY_MAX_ATTEMPTS 0 maxTokens0 messages none

/-! ### Rate limiter (`llm_client.py` lines 291-341)

Timestamps (`time.time()` floats) are rationals.  The limiter state is
the recorded entry list; `_record_request`/`_record_tokens` append at
the time the backend call finished, which in a sequential execution is
strictly after the throttle sleep has elapsed. -/

/-- `Python sorted(entries, key=lambda x: x[0])` — a stable sort on the
timestamp; `List.insertionSort` on the first component is stable. -/
def sortByTime (entries : List (ℚ × Nat)) : List (ℚ × Nat) :=
  entries.insertionSort fun a b => a.1 ≤ b.1

/-- The oldest-first scan of `_throttle_tokens_if_needed` (lines
327-335): subtract each entry's weight from the running `cumulative`
total and, at the first entry after whose expiry
`cumulative + requested ≤ tpm`, sleep until that entry exits the window
(`sleep_for` stays `0.0` if no entry suffices). -/
def findTokenSleep (tpm requested : Int) (window now : ℚ) :
    Int → List (ℚ × Nat) → ℚ
  | _, [] => 0
  | cumulative, (ts, tok) :: rest =>
    let cumulative' := cumulative - tok
    if cumulative' + requested ≤ tpm then max 0 (ts + window - now)
    else findTokenSleep tpm requested window now cumulative' rest

/-- `LLMClient._throttle_tokens_if_needed` (lines 311-338): evict
entries older than the window, and if the surviving weights plus the
request exceed the limit, compute the sleep via the oldest-first scan.
Returns the evicted entry list (the state the method leaves behind) and
the sleep duration.  A limit of `0` models the `not tpm or tpm <= 0`
disabled path. -/
def throttleTokensIfNeeded (cfg : Config) (now : ℚ) (entries : List (ℚ × Nat))
    (requested : Nat) : List (ℚ × Nat) × ℚ :=
  if cfg.OPENAI_TPM_LIMIT = 0 then (entries, 0)
  else
    let window := cfg.TPM_WINDOW_SEC
    let entries' := entries.filter fun e => now - window ≤ e.1
    let used := (entries'.map Prod.snd).sum
    if (cfg.OPENAI_TPM_LIMIT : Int) < (used : Int) + (requested : Int) then
      (entries',
        findTokenSleep cfg.OPENAI_TPM_LIMIT requested window now used (sortByTime entries'))
    else (entries', 0)

/-- `LLMClient._throttle_if_needed` (lines 291-306): evict request
timestamps older than the window; if at least `rpm` survive, sleep until
the oldest rolls out. -/
def throttleIfNeeded (cfg : Config) (now : ℚ) (timestamps : List ℚ) : List ℚ × ℚ :=
  if cfg.OPENAI_RPM_LIMIT = 0 then (timestamps, 0)
  else
    let window := cfg.RPM_WINDOW_SEC
    let ts' := timestamps.filter fun t => now - window ≤ t
    if cfg.OPENAI_RPM_LIMIT ≤ ts'.length then
      match ts' with
      | [] => (ts', 0)   -- unreachable: `rpm ≥ 1 ≤ len(ts')`
      | oldest :: _ => (ts', max 0 (oldest + window - now))
    else (ts', 0)

/-- One sequential pass through a limiter: throttle begins at `now`,
with `req` as the weight the throttle is asked about (`1` for the
request limiter, the token estimate for the token limiter), and the
entry is recorded at `recordAt` (after the backend call returns).
`usage` is the `usage.total_tokens` value reported by the backend's
response, or `none` when the response carries no usage — lines 83-88
record this reported value when present and recompute the estimate
otherwise. -/
structure LimiterCall where
  now : ℚ
  req : Nat
  recordAt : ℚ
  usage : Option Nat := none
deriving DecidableEq

/-- The weight `_record_tokens` actually appends (lines 83-88): the
response's reported `usage.total_tokens` when available, else the same
estimate that was passed to the throttle. -/
def recordedTokens (c : LimiterCall) : Nat :=
  c.usage.getD c.req

/-- One call through the token limiter: `_throttle_tokens_if_needed`
followed by `_record_tokens` (line 340-341, which appends the entry
with the reported-usage weight). -/
def tokenLimiterStep (cfg : Config) (st : List (ℚ × Nat)) (c : LimiterCall) :
    List (ℚ × Nat) :=
  (throttleTokensIfNeeded cfg c.now st c.req).1 ++ [(c.recordAt, recordedTokens c)]

/-- One call through the request limiter: `_throttle_if_needed` followed
by `_record_request` (lines 308-309). -/
def requestLimiterStep (cfg : Config) (st : List ℚ) (c : LimiterCall) : List ℚ :=
  (throttleIfNeeded cfg c.now st).1 ++ [c.recordAt]

/-- Well-formedness of a sequential token-limiter trace: each call
starts no earlier than the previous call's record, and records strictly
after its own computed sleep has elapsed (the record happens after the
backend round trip, hence strictly after the sleep). -/
def tokenTraceValid (cfg : Config) : ℚ → List (ℚ × Nat) → List LimiterCall → Prop
  | _, _, [] => True
  | lastT, st, c :: cs =>
    lastT ≤ c.now ∧ c.now + (throttleTokensIfNeeded cfg c.now st c.req).2 < c.recordAt ∧
      tokenTraceValid cfg c.recordAt (tokenLimiterStep cfg st c) cs

/-- Sum of the weights of the entries lying inside the window at time
`t` (the code's own membership test: `timestamp ≥ t − window`). -/
def windowTokenSum (window t : ℚ) (entries : List (ℚ × Nat)) : Nat :=
  ((entries.filter fun e => t - window ≤ e.1).map Prod.snd).sum

/-- The invariant claimed for the token limiter: right after each call's
entry is recorded, the in-window weights sum to at most the limit. -/
def tokenTraceBounded (cfg : Config) : List (ℚ × Nat) → List LimiterCall → Prop
  | _, [] => True
  | st, c :: cs =>
    windowTokenSum cfg.TPM_WINDOW_SEC c.recordAt (tokenLimiterStep cfg st c) ≤
        cfg.OPENAI_TPM_LIMIT ∧
      tokenTraceBounded cfg (tokenLimiterStep cfg st c) cs

/-- Request-limiter analogue of `tokenTraceValid`. -/
def requestTraceValid (cfg : Config) : ℚ → List ℚ → List LimiterCall → Prop
  | _, _, [] => True
  | lastT, st, c :: cs =>
    lastT ≤ c.now ∧ c.now + (throttleIfNeeded cfg c.now st).2 < c.recordAt ∧
      requestTraceValid cfg c.recordAt (requestLimiterStep cfg st c) cs

/-- Number of request timestamps inside the window at time `t`. -/
def windowRequestCount (window t : ℚ) (timestamps : List ℚ) : Nat :=
  (timestamps.filter fun x => t - window ≤ x).length

/-- The invariant claimed for the request limiter: right after each
call is recorded, at most `rpm` timestamps lie inside the window. -/
def requestTraceBounded (cfg : Config) : List ℚ → List LimiterCall → Prop
  | _, [] => True
  | st, c :: cs =>
    windowRequestCount cfg.RPM_WINDOW_SEC c.recordAt (requestLimiterStep cfg st c) ≤
        cfg.OPENAI_RPM_LIMIT ∧
      requestTraceBounded cfg (requestLimiterStep cfg st c) cs

/-! ### Function calling (`function_caller.py`) and the `chat` pipeline
(`ai_assistant.py` lines 35-156) -/

/-- The result dict of `FunctionCaller.execute_function_call`:
`{function_name, result, status}`. -/
structure FnResult where
  functionName : Option PyStr
  result : FCValue
  status : PyStr
deriving DecidableEq

/-- Collaborators of the function caller: the registered-function
registry (each callable may raise), the external-API fallback
`_call_external_api` (which catches everything internally and always
returns a result dict), and `json.loads` (which may raise on malformed
input). -/
structure FnEnv where
  registered : List (PyStr × (List (PyStr × FCValue) → Except PyStr FCValue))
  externalApi : Option PyStr → List (PyStr × FCValue) → FnResult
  jsonLoads : PyStr → Except PyStr (List (PyStr × FCValue))

/-- The `try` block of `execute_function_call` (`function_caller.py`
lines 173-206), for the dict-shaped `function_call` the chat flow always
passes: read `name`/`arguments`, `json.loads` a string argument payload,
then dispatch to a registered function or fall back to the external
API. -/
def executeFunctionCallBody (env : FnEnv) (fc : FunctionCallDict) :
    Except PyStr FnResult :=
  match (match fc.arguments with
         | .rawStr s => env.jsonLoads s
         | .mapping m => Except.ok m) with
  | .error e => .error e
  | .ok args =>
    match fc.name with
    | some n =>
      match List.lookup n env.registered with
      | some f =>
        match f args with
        | .error e => .error e
        | .ok v => .ok { functionName := some n, result := v, status := pyStr "success" }
      | none => .ok (env.externalApi (some n) args)
    | none => .ok (env.externalApi none args)

/-- `FunctionCaller.execute_function_call` (lines 163-214): the `try`
block wrapped in the `except Exception` handler that converts any raise
into `{function_name, result: f"Error: {e}", status: "error"}`. -/
def executeFunctionCall (env : FnEnv) (fc : FunctionCallDict) : FnResult :=
  match executeFunctionCallBody env fc with
  | .ok r => r
  | .error e =>
    { functionName := fc.name, result := .str (pyStr "Error: " ++ e), status := pyStr "error" }

/-- `json.dumps` for the flat value model (string escaping for the two
characters JSON must escape in this model). -/
def jsonDumps : FCValue → PyStr
  | .str s => '"' :: (s.map fun c => if c = '"' ∨ c = '\\' then ['\\', c] else [c]).flatten ++ ['"']
  | .num n => pyStr (toString n)
  | .boolean b => if b then pyStr "true" else pyStr "false"
  | .null => pyStr "null"

/-- `AIAssistant._is_russian_text` (lines 158-160). -/
def isRussianText (s : PyStr) : Bool :=
  s.any fun c => (pyStr "абвгдеёжзийклмнопрстуфхцчшщъыьэюяАБВГДЕЁЖЗИЙКЛМНОПРСТУФХЦЧШЩЪЫЬЭЮЯ").contains c

/-- Replace the content of the last message: `messages[-1]["content"] =
...`, which also mutates the aliased dict inside
`conversation_history`. -/
def setLastContent : List Turn → PyStr → List Turn
  | [], _ => []
  | [m], c => [{ m with content := some c }]
  | m :: m' :: rest, c => m :: setLastContent (m' :: rest) c

/-- The user turn appended by `chat` (lines 41-44). -/
def userTurn (userMessage : PyStr) : Turn :=
  { role := pyStr "user", content := some userMessage }

/-- The summary-carrier system turn inserted at index 1 (line 76). -/
def summaryTurn (summary : PyStr) : Turn :=
  { role := pyStr "system",
    content := some (pyStr "Running summary of prior conversation (for context preservation):\n" ++ summary) }

/-- External collaborators of one `chat` call.  `firstCall` stands for
`llm_client.function_call`/`chat_completion` on the shaped messages
(which may raise), `secondCall` for the follow-up `chat_completion`
issued without function definitions after a function round trip,
`translate` for `_translate_to_english` (catches internally, total),
`ragDocs` for the page contents `rag_system.search_similar` returns for
a query (with `[]` also covering the internal `except` path), and
`buildSystemPrompt` for `_build_system_prompt` as a function of
`len(conversation_history)` (its output is only ever carried as opaque
content text). -/
structure ChatEnv where
  ensureFunctionCaller : Except PyStr Unit
  buildSystemPrompt : Nat → PyStr
  translate : PyStr → PyStr
  ragDocs : PyStr → List PyStr
  firstCall : List Turn → Except PyStr Response
  secondCall : List Turn → Except PyStr Response
  fnEnv : FnEnv

/-- The assistant-owned conversation state: `conversation_history` and
the rolling `_summary`. -/
structure ChatState where
  history : List Turn
  summary : PyStr
deriving DecidableEq

/-- The dict `chat` returns: a success payload, or the structured error
dict `{response: "I apologize, ...", error: str(e)}` built by the
outermost `except` handler. -/
inductive ChatResult where
  | success (response : Option PyStr) (functionCalls : List FnResult)
      (contextUsed : Bool) (usage : Option FCValue) (model : Option PyStr)
  | failure (response : PyStr) (error : PyStr)
deriving DecidableEq

/-- `f"I apologize, but I encountered an error: {str(e)}"` (line 154). -/
def apologyMessage (e : PyStr) : PyStr :=
  pyStr "I apologize, but I encountered an error: " ++ e

/-- An f-string rendering of the assistant message (`None` renders as
`"None"` when `final_response["content"]` is null). -/
def optContentStr : Option PyStr → PyStr
  | some s => s
  | none => pyStr "None"

/-- Result of the message-preparation phase of `chat` (lines 41-76):
the outgoing message list just before `_trim_messages`, the
conversation history after the shared-dict writes, and the (possibly
truncated) retrieval context. -/
structure PreparedChat where
  messages : List Turn
  history : List Turn
  context : PyStr
deriving DecidableEq

/-- The search query used for retrieval (lines 59-64): the user message,
replaced by its translation when it contains Cyrillic and the
translation (which never raises and falls back to the original) is
non-empty. -/
def chatSearchQuery (env : ChatEnv) (userMessage : PyStr) (translateQueries : Bool) : PyStr :=
  if translateQueries && isRussianText userMessage then
    (let t := env.translate userMessage; if t = [] then userMessage else t)
  else userMessage

/-- `f"Context:\n{context}\n\nUser question: {user_message}"`
(line 71). -/
def enhancedMessage (context userMessage : PyStr) : PyStr :=
  pyStr "Context:\n" ++ context ++ pyStr "\n\nUser question: " ++ userMessage

/-- Lines 49-55 of `AIAssistant.chat`: the freshly built system prompt
is inserted at the front of the copied history, or — when the first
entry is already a system turn — overwritten in place, which writes
through the dict shared with `conversation_history`.  Returns
`(messages, history)` after this step. -/
def chatSystemMessages (systemContent : PyStr) (hist1 : List Turn) : List Turn × List Turn :=
  let headIsSystem : Bool := match hist1 with
    | m :: _ => m.role = pyStr "system"
    | [] => false
  let hist2 := if headIsSystem then
      (match hist1 with
       | m :: rest => { m with content := some systemContent } :: rest
       | [] => hist1)
    else hist1
  let messages1 := if headIsSystem then hist2
    else { role := pyStr "system", content := some systemContent } :: hist2
  (messages1, hist2)

/-- Lines 41-76 of `AIAssistant.chat`: append the user turn, build and
attach the system prompt (overwriting in place when the first history
entry is already a system turn — a write through the shared dict),
retrieve and truncate RAG context and rewrite the user turn's content
(again through the shared dict), and insert the rolling-summary carrier
turn at index 1. -/
def chatPrepare (cfg : Config) (env : ChatEnv) (st : ChatState) (userMessage : PyStr)
    (useRag translateQueries : Bool) : PreparedChat :=
  let hist1 := st.history ++ [userTurn userMessage]
  let systemContent := env.buildSystemPrompt hist1.length
  let hist2 := (chatSystemMessages systemContent hist1).2
  let messages1 := (chatSystemMessages systemContent hist1).1
  let rawContext := if useRag then
      getRelevantContext cfg (env.ragDocs (chatSearchQuery env userMessage translateQueries))
    else []
  let context := if cfg.RAG_CONTEXT_MAX_CHARS < rawContext.length then
      rawContext.take cfg.RAG_CONTEXT_MAX_CHARS
    else rawContext
  let enhanced := enhancedMessage context userMessage
  let hist3 := if rawContext = [] then hist2 else setLastContent hist2 enhanced
  let messages2 := if rawContext = [] then messages1 else setLastContent messages1 enhanced
  let messages3 := if st.summary = [] then messages2 else pyInsert 1 (summaryTurn st.summary) messages2
  { messages := messages3, history := hist3, context := context }

/-- The assistant function-call turn appended after dispatch
(lines 113-117). -/
def assistantFcTurn (fc : FunctionCallDict) : Turn :=
  { role := pyStr "assistant", content := none, functionCall := some fc }

/-- The function-role turn appended after dispatch (lines 119-123),
carrying `json.dumps(function_result["result"])`. -/
def functionResultTurn (fr : FnResult) : Turn :=
  { role := pyStr "function", content := some (jsonDumps fr.result), name := fr.functionName }

/-- `AIAssistant.chat` (lines 35-156): preparation, trimming, first
backend call, optional function round trip with a second backend call,
state commit (history append + rolling summary) on success, and the
outermost `except Exception` handler that converts every internal
failure into the structured error dict. -/
def chatModel (cfg : Config) (env : ChatEnv) (st : ChatState) (userMessage : PyStr)
    (useRag useFunctions translateQueries : Bool) : ChatState × ChatResult :=
  match (if useFunctions then env.ensureFunctionCaller else Except.ok ()) with
  | .error e => (st, .failure (apologyMessage e) e)
  | .ok _ =>
    let prep := chatPrepare cfg env st userMessage useRag translateQueries
    let messages4 := trimMessages cfg prep.messages
    match env.firstCall messages4 with
    | .error e => ({ st with history := prep.history }, .failure (apologyMessage e) e)
    | .ok response =>
      match response.functionCall with
      | some fc =>
        let functionResult := executeFunctionCall env.fnEnv fc
        let messages6 := trimMessages cfg (messages4 ++ [assistantFcTurn fc, functionResultTurn functionResult])
        match env.secondCall messages6 with
        | .error e => ({ st with history := prep.history }, .failure (apologyMessage e) e)
        | .ok finalResponse =>
          ( { history := prep.history ++ [{ role := pyStr "assistant", content := finalResponse.content }],
              summary := updateSummary st.summary userMessage (optContentStr finalResponse.content) },
            .success finalResponse.content [functionResult] (decide (prep.context ≠ []))
              response.usage response.model )
      | none =>
        ( { history := prep.history ++ [{ role := pyStr "assistant", content := response.content }],
            summary := updateSummary st.summary userMessage (optContentStr response.content) },
          .success response.content [] (decide (prep.context ≠ []))
            response.usage response.model )

/-! ### Theorems -/

/-- ceiling division by 4, the rounding the claim asserts. -/
def ceilDiv4 (n : Nat) : Nat := (n + 3) / 4

/-- The record format used by the claim C7 (`"user: <u>\nassistant:
<a>\n"`, lower-case role tags). -/
def claimRecord (user assistant : PyStr) : PyStr :=
  pyStr "user: " ++ user ++ pyStr "\nassistant: " ++ assistant ++ pyStr "\n"

/-- The concrete turn used by the `c1_amended` witness. -/
def c1WitnessTurn : Turn := { role := pyStr "user", content := some (pyStr "0123456789ab") }

/-- The 200-character system turn of the C2 counterexample. -/
def c2CexSystem : Turn := { role := pyStr "system", content := some (List.replicate 200 's') }

/-- The 50-character user turn of the C2 counterexample. -/
def c2CexUser : Turn := { role := pyStr "user", content := some (List.replicate 50 'u') }

/-- The response-token cap after `n` capacity retries. -/
def capIter (cap : Nat) : Nat → Nat
  | 0 => cap
  | n + 1 => capStep (capIter cap n)

/-- The always-rate-limited backend used by the `c3_confirmed`
witness. -/
def c3WitnessSend : Nat → List Turn → SendOutcome := fun _ _ => .failure (pyStr "rate_limit")

/-- A function-calling environment with no registered functions, used
by the concrete chat scenarios. -/
def c9CexFnEnv : FnEnv :=
  { registered := [],
    externalApi := fun nm _ => { functionName := nm, result := .null, status := pyStr "error" },
    jsonLoads := fun _ => Except.error (pyStr "bad json") }

/-- Retrieval environment of the C9 counterexample: one passage
(`"alpha"`) is always retrieved. -/
def c9CexEnv : ChatEnv :=
  { ensureFunctionCaller := Except.ok (),
    buildSystemPrompt := fun _ => pyStr "S",
    translate := fun s => s,
    ragDocs := fun _ => [pyStr "alpha"],
    firstCall := fun _ => Except.error (pyStr "e"),
    secondCall := fun _ => Except.error (pyStr "e"),
    fnEnv := c9CexFnEnv }

/-- Environment of the `c10_confirmed` witness: the first backend call
always raises `boom`. -/
def c10WitnessEnv : ChatEnv :=
  { ensureFunctionCaller := Except.ok (),
    buildSystemPrompt := fun _ => pyStr "S",
    translate := fun s => s,
    ragDocs := fun _ => [],
    firstCall := fun _ => Except.error (pyStr "boom"),
    secondCall := fun _ => Except.error (pyStr "boom"),
    fnEnv := c9CexFnEnv }

/-- The empty conversation state used by the chat witnesses. -/
def emptyChatState : ChatState := { history := [], summary := [] }

/-- The state `chat` leaves behind in the `c10_witness` scenario: the
dangling user turn and an untouched summary. -/
def c10AfterState : ChatState :=
  { history := [{ role := pyStr "user", content := some (pyStr "hi") }], summary := [] }

/-- The registered `get_price` function of the C5 witness: always fails
with a lookup error. -/
def c5PriceFn : List (PyStr × FCValue) → Except PyStr FCValue :=
  fun _ => Except.error (pyStr "lookup error")

/-- Function-calling environment of the C5 witness. -/
def c5FnEnv : FnEnv :=
  { registered := [(pyStr "get_price", c5PriceFn)],
    externalApi := fun nm _ => { functionName := nm, result := .null, status := pyStr "error" },
    jsonLoads := fun _ => Except.error (pyStr "bad json") }

/-- The function-call request of scenario D:
`get_price(coin_id="bitcoin")`. -/
def c5Fc : FunctionCallDict :=
  { name := some (pyStr "get_price"),
    arguments := .mapping [(pyStr "coin_id", .str (pyStr "bitcoin"))] }

/-- First backend response of the C5 witness: a function-call request
with no content. -/
def c5FirstResponse : Response := { content := none, functionCall := some c5Fc }

/-- Second backend response of the C5 witness. -/
def c5FinalResponse : Response := { content := some (pyStr "ack") }

/-- Chat environment of the C5 witness. -/
def c5Env : ChatEnv :=
  { ensureFunctionCaller := Except.ok (),
    buildSystemPrompt := fun _ => pyStr "S",
    translate := fun s => s,
    ragDocs := fun _ => [],
    firstCall := fun _ => Except.ok c5FirstResponse,
    secondCall := fun _ => Except.ok c5FinalResponse,
    fnEnv := c5FnEnv }

def c4CexCfg : Config := { OPENAI_TPM_LIMIT := 100 }

def c4CexCall : LimiterCall := { now := 0, req := 200, recordAt := 1 }

def c4WitCfg : Config := { OPENAI_RPM_LIMIT := 2, OPENAI_TPM_LIMIT := 100 }

def c4WitCalls : List LimiterCall := [{ now := 0, req := 60, recordAt := 1 }]

set_option maxRecDepth 40000

/-- The fold inside `_estimate_message_tokens` computes the total
content length plus 20 characters per message. -/
theorem estimate_foldl_eq (messages : List Turn) (acc : Nat) :
    messages.foldl (fun acc m => acc + contentLen m + 20) acc =
      acc + totalContentLen messages + 20 * messages.length := by
  induction messages generalizing acc with
  | nil => simp [totalContentLen]
  | cons m rest ih =>
    simp only [List.foldl_cons, ih, totalContentLen, List.map_cons, List.sum_cons,
      List.length_cons]
    ring

/-- C8, as stated, at one concrete input: for a single message of
content `"a"` and a response cap of `0`, the throttle amount the code
computes is `max(1, ⌊21/4⌋) = 5`, not `⌈21/4⌉ = 6` — the estimator uses
floor division (with a floor of 1), not the ceiling. -/
theorem c8_counterexample :
    ¬ (throttleRequestAmount [{ role := pyStr "user", content := some (pyStr "a") }] 0 =
        ceilDiv4 (totalContentLen [({ role := pyStr "user", content := some (pyStr "a") } : Turn)] +
          20 * 1) + 0) := by
  decide

/-- C8 (amended): the token amount used for throttling before a backend
call equals `max(1, ⌊(sum of content lengths + 20 per message) / 4⌋)`
plus the configured response token cap (and just the cap for an empty
message list) — floor division with a minimum of one token, not a
ceiling. -/
theorem c8_amended (messages : List Turn) (maxTokens : Nat) :
    throttleRequestAmount messages maxTokens =
      (if messages = [] then 0
       else max 1 ((totalContentLen messages + 20 * messages.length) / 4)) + maxTokens := by
  cases messages with
  | nil => simp [throttleRequestAmount, estimateMessageTokens]
  | cons m rest =>
    have h1 : estimateMessageTokens (m :: rest) =
        max 1 (((m :: rest).foldl (fun acc m => acc + contentLen m + 20) 0) / 4) := rfl
    have h2 : 0 + totalContentLen (m :: rest) + 20 * (m :: rest).length =
        totalContentLen (m :: rest) + 20 * (m :: rest).length := by omega
    simp only [throttleRequestAmount, h1, estimate_foldl_eq, h2]
    simp

/-- Python `s[-n:]` of an already-suffix-truncated string: truncating a
suffix again after appending equals truncating the full concatenation
once. -/
theorem pyLastN_append_pyLastN (x y : PyStr) (n : Nat) :
    pyLastN (pyLastN x n ++ y) n = pyLastN (x ++ y) n := by
  unfold pyLastN
  rcases le_or_lt x.length n with h | h
  · rw [Nat.sub_eq_zero_of_le h]
    simp
  · have hdl : (x.drop (x.length - n)).length = n := by
      rw [List.length_drop]; omega
    rw [List.length_append, List.length_append, hdl,
      List.drop_append_eq_append_drop, List.drop_append_eq_append_drop, hdl,
      List.drop_drop]
    have e1 : x.length - n + (n + y.length - n) = x.length + y.length - n := by omega
    have e2 : n + y.length - n - n = x.length + y.length - n - x.length := by omega
    rw [e1, e2]

theorem pyLastN_length_le (s : PyStr) (n : Nat) : (pyLastN s n).length ≤ n := by
  unfold pyLastN
  rw [List.length_drop]
  omega

theorem pyLastN_ne_nil (s : PyStr) (h : s ≠ []) : pyLastN s 1200 ≠ [] := by
  unfold pyLastN
  intro hnil
  rw [List.drop_eq_nil_iff] at hnil
  have : 0 < s.length := List.length_pos.mpr h
  omega

theorem pyLastN_of_length_le (s : PyStr) (n : Nat) (h : s.length ≤ n) :
    pyLastN s n = s := by
  unfold pyLastN
  rw [Nat.sub_eq_zero_of_le h]
  simp

/-- `_update_summary` on a non-empty summary is suffix retention of the
appended record. -/
theorem updateSummary_of_ne_nil (s u a : PyStr) (h : s ≠ []) :
    updateSummary s u a = pyLastN (s ++ summaryRecord u a) 1200 := by
  simp [updateSummary, summaryRecord, h]

/-- C7, as stated, at one concrete input: starting from the empty
summary and appending a single pair whose user message is 1300 `x`s,
the code keeps the *leading* 1200 characters of the record
(`"User: xxx…"`), not the trailing 1200 characters of the concatenated
`"user: …"` records the claim describes (which begin inside the run of
`x`s) — on a first-record overflow the newest content is dropped, and
the records are capitalised `"User: "`/`"Assistant: "`. -/
theorem c7_counterexample :
    ¬ (List.foldl (fun acc p => updateSummary acc p.1 p.2) []
          [(List.replicate 1300 'x', ([] : PyStr))] =
        pyLastN ([] ++ (([(List.replicate 1300 'x', ([] : PyStr))].map
          fun p => claimRecord p.1 p.2).flatten)) 1200) := by
  intro hEq
  have hhead := congrArg List.head? hEq
  rw [show List.foldl (fun acc p => updateSummary acc p.1 p.2) []
        [(List.replicate 1300 'x', ([] : PyStr))] =
      updateSummary [] (List.replicate 1300 'x') [] from rfl] at hhead
  revert hhead
  decide

/-- Iterated `_update_summary` starting from a non-empty summary of at
most 1200 characters is suffix retention of the full concatenation. -/
theorem foldl_updateSummary (pairs : List (PyStr × PyStr)) :
    ∀ s : PyStr, s ≠ [] → s.length ≤ 1200 →
      List.foldl (fun acc p => updateSummary acc p.1 p.2) s pairs =
        pyLastN (s ++ (pairs.map fun p => summaryRecord p.1 p.2).flatten) 1200 := by
  induction pairs with
  | nil =>
    intro s h1 h2
    simpa using (pyLastN_of_length_le s 1200 h2).symm
  | cons p rest ih =>
    intro s h1 h2
    have hupd : updateSummary s p.1 p.2 = pyLastN (s ++ summaryRecord p.1 p.2) 1200 :=
      updateSummary_of_ne_nil s p.1 p.2 h1
    have hne : updateSummary s p.1 p.2 ≠ [] := by
      rw [hupd]
      exact pyLastN_ne_nil _ (by simp [summaryRecord, pyStr])
    have hle : (updateSummary s p.1 p.2).length ≤ 1200 := by
      rw [hupd]; exact pyLastN_length_le _ _
    rw [List.foldl_cons, ih _ hne hle, hupd, pyLastN_append_pyLastN]
    simp [List.append_assoc]

/-- C7 (amended): the update records are `"User: <u>\nAssistant: <a>\n"`
(capitalised tags), and for every *non-empty* starting summary of at
most 1200 characters (every summary the assistant ever stores satisfies
this), applying the update once per pair equals taking the trailing
1200 characters of the concatenation of the start with all records —
truncating after each append matches truncating once at the end, and on
overflow the oldest content is dropped.  When the starting summary is
empty, however, the first update keeps the *leading* 1200 characters of
its record, so a first record longer than 1200 characters loses its
newest content instead. -/
theorem c7_amended (s : PyStr) (pairs : List (PyStr × PyStr))
    (h1 : s ≠ []) (h2 : s.length ≤ 1200) :
    List.foldl (fun acc p => updateSummary acc p.1 p.2) s pairs =
      pyLastN (s ++ (pairs.map fun p => summaryRecord p.1 p.2).flatten) 1200 ∧
    ∀ u a : PyStr, updateSummary [] u a = (summaryRecord u a).take 1200 := by
  refine ⟨foldl_updateSummary pairs s h1 h2, fun u a => ?_⟩
  simp [updateSummary, summaryRecord]

/-- Witness for `c7_amended` at a concrete starting summary and pair
list. -/
theorem c7_witness :
    (pyStr "x" ≠ [] ∧ (pyStr "x").length ≤ 1200) ∧
    (List.foldl (fun acc p => updateSummary acc p.1 p.2) (pyStr "x")
        [(pyStr "q", pyStr "r")] =
      pyLastN (pyStr "x" ++ (([(pyStr "q", pyStr "r")].map
        fun p => summaryRecord p.1 p.2).flatten)) 1200 ∧
    ∀ u a : PyStr, updateSummary [] u a = (summaryRecord u a).take 1200) :=
  ⟨⟨by decide, by decide⟩, c7_amended (pyStr "x") [(pyStr "q", pyStr "r")] (by decide) (by decide)⟩

/-- The budget loop keeps the running total within the budget. -/
theorem keepNewestAux_total_le (budget : Nat) (l : List Turn) :
    ∀ used, used ≤ budget →
      used + totalContentLen (keepNewestAux budget used l) ≤ budget := by
  induction l with
  | nil =>
    intro used h
    simpa [keepNewestAux, totalContentLen] using h
  | cons m rest ih =>
    intro used h
    by_cases hc : used + (m.content.getD []).length ≤ budget
    · have hstep : keepNewestAux budget used (m :: rest) =
          m :: keepNewestAux budget (used + (m.content.getD []).length) rest := by
        simp [keepNewestAux, hc]
      have hrec := ih (used + (m.content.getD []).length) hc
      rw [hstep]
      simp only [totalContentLen, List.map_cons, List.sum_cons, contentLen] at hrec ⊢
      omega
    · have hstep : keepNewestAux budget used (m :: rest) = [] := by
        simp [keepNewestAux, hc]
      rw [hstep]
      simpa [totalContentLen] using h

/-- The kept history (before reversal) respects the character budget. -/
theorem keepNewest_total_le (budget : Nat) (l : List Turn) :
    totalContentLen (keepNewest budget l) ≤ budget := by
  cases l with
  | nil => simp [keepNewest, totalContentLen]
  | cons m rest =>
    by_cases hc : (m.content.getD []).length ≤ budget
    · have hstep : keepNewest budget (m :: rest) =
          m :: keepNewestAux budget (m.content.getD []).length rest := by
        simp [keepNewest, hc]
      have hrec := keepNewestAux_total_le budget rest ((m.content.getD []).length) hc
      rw [hstep]
      simp only [totalContentLen, List.map_cons, List.sum_cons, contentLen] at hrec ⊢
      omega
    · by_cases hz : 0 < (m.content.getD []).length
      · have hstep : keepNewest budget (m :: rest) =
            [{ m with content := some ((m.content.getD []).take budget) }] := by
          simp [keepNewest, hc, hz]
        rw [hstep]
        simp [totalContentLen, contentLen, List.length_take]
      · have hstep : keepNewest budget (m :: rest) = [] := by
          simp [keepNewest, hc, hz]
        rw [hstep]
        simp [totalContentLen]

theorem totalContentLen_reverse (l : List Turn) :
    totalContentLen l.reverse = totalContentLen l := by
  simp [totalContentLen, List.map_reverse, List.sum_reverse]

/-- The kept history of `_trim_messages` respects the character
budget. -/
theorem keptHistory_total_le (cfg : Config) (messages : List Turn) :
    totalContentLen (keptHistory cfg messages) ≤ cfg.MAX_PROMPT_CHARS := by
  unfold keptHistory
  rw [totalContentLen_reverse]
  exact keepNewest_total_le _ _

/-- `_trim_messages` without a leading system turn returns exactly the
kept history. -/
theorem trimMessages_none (cfg : Config) (messages : List Turn)
    (h : trimSystem messages = none) :
    trimMessages cfg messages = keptHistory cfg messages := by
  cases messages with
  | nil => simp [trimMessages, keptHistory, recentHistory, trimHistory, keepNewest]
  | cons m rest =>
    unfold trimMessages
    rw [h]

/-- `_trim_messages` with a leading system turn: the three re-attachment
branches. -/
theorem trimMessages_some (cfg : Config) (messages : List Turn) (sm : Turn)
    (h : trimSystem messages = some sm) :
    trimMessages cfg messages =
      (if cfg.MAX_PROMPT_CHARS - totalContentLen (keptHistory cfg messages) <
            (sm.content.getD []).length ∧
          0 < cfg.MAX_PROMPT_CHARS - totalContentLen (keptHistory cfg messages) then
        { sm with content := some ((sm.content.getD []).take
            (cfg.MAX_PROMPT_CHARS - totalContentLen (keptHistory cfg messages))) } ::
          keptHistory cfg messages
      else if cfg.MAX_PROMPT_CHARS - totalContentLen (keptHistory cfg messages) = 0 then
        { sm with content := some ((sm.content.getD []).take 128) } :: keptHistory cfg messages
      else sm :: keptHistory cfg messages) := by
  cases messages with
  | nil => simp [trimSystem] at h
  | cons m rest =>
    unfold trimMessages
    rw [h]

/-- C1, as stated, at one concrete input: with `max_prompt_chars = 10`,
a 16-character system turn and a single 10-character user turn, the
trimmed output is the 10-character user turn *plus* the whole system
turn (re-attached under the 128-character floor because the history
exactly exhausts the budget), for a total of 26 > 10 — yet the newest
history turn does not exceed the budget, so the claimed exception does
not apply. -/
theorem c1_counterexample :
    ¬ (totalContentLen (trimMessages { MAX_PROMPT_CHARS := 10 }
          [{ role := pyStr "system", content := some (pyStr "abcdefghijklmnop") },
           { role := pyStr "user", content := some (pyStr "0123456789") }]) ≤ 10 ∨
        ∃ m, (trimHistory
            [{ role := pyStr "system", content := some (pyStr "abcdefghijklmnop") },
             ({ role := pyStr "user", content := some (pyStr "0123456789") } : Turn)]).getLast? =
              some m ∧
          10 < contentLen m ∧
          trimHistory (trimMessages { MAX_PROMPT_CHARS := 10 }
              [{ role := pyStr "system", content := some (pyStr "abcdefghijklmnop") },
               { role := pyStr "user", content := some (pyStr "0123456789") }]) =
            [{ m with content := some ((m.content.getD []).take 10) }]) := by
  rintro (h | ⟨m, hm, hlt, -⟩)
  · exact absurd h (by decide)
  · have hm' : some ({ role := pyStr "user", content := some (pyStr "0123456789") } : Turn) =
        some m := by
      rw [← hm]; decide
    rw [← Option.some_inj.mp hm'] at hlt
    exact absurd hlt (by decide)

/-- C1 (amended): the kept *history* always respects the character
budget; the full output (system turn included) respects it too, except
that when the kept history exactly exhausts the budget the system turn
is still re-attached truncated to a 128-character floor, so the total
is then only bounded by `max_prompt_chars + 128`.  In particular, when
the single newest history turn alone exceeds the budget, the kept
history is exactly that turn truncated to exactly `max_prompt_chars`
characters (and the budget is exactly exhausted). -/
theorem c1_amended (cfg : Config) (messages : List Turn) :
    totalContentLen (keptHistory cfg messages) ≤ cfg.MAX_PROMPT_CHARS ∧
    (totalContentLen (trimMessages cfg messages) ≤ cfg.MAX_PROMPT_CHARS ∨
      (totalContentLen (keptHistory cfg messages) = cfg.MAX_PROMPT_CHARS ∧
        totalContentLen (trimMessages cfg messages) ≤ cfg.MAX_PROMPT_CHARS + 128)) ∧
    (∀ m, (trimHistory messages).getLast? = some m →
      cfg.MAX_PROMPT_CHARS < contentLen m →
      keptHistory cfg messages =
          [{ m with content := some ((m.content.getD []).take cfg.MAX_PROMPT_CHARS) }] ∧
        totalContentLen (keptHistory cfg messages) = cfg.MAX_PROMPT_CHARS) := by
  have hkept := keptHistory_total_le cfg messages
  have hcons : ∀ (t : Turn) (l : List Turn),
      totalContentLen (t :: l) = contentLen t + totalContentLen l := by
    intro t l
    simp [totalContentLen]
  refine ⟨hkept, ?_, ?_⟩
  · rcases hsys : trimSystem messages with - | sm
    · rw [trimMessages_none cfg messages hsys]
      exact Or.inl hkept
    · rw [trimMessages_some cfg messages sm hsys]
      split_ifs with h1 h2
      · left
        rw [hcons]
        have hcl : contentLen { sm with content := some ((sm.content.getD []).take
            (cfg.MAX_PROMPT_CHARS - totalContentLen (keptHistory cfg messages))) } =
            ((sm.content.getD []).take (cfg.MAX_PROMPT_CHARS -
              totalContentLen (keptHistory cfg messages))).length := rfl
        rw [hcl, List.length_take]
        omega
      · right
        refine ⟨by omega, ?_⟩
        rw [hcons]
        have hcl : contentLen { sm with content := some ((sm.content.getD []).take 128) } =
            ((sm.content.getD []).take 128).length := rfl
        rw [hcl, List.length_take]
        omega
      · left
        rw [hcons]
        have hcl : contentLen sm = (sm.content.getD []).length := rfl
        have hle : (sm.content.getD []).length ≤
            cfg.MAX_PROMPT_CHARS - totalContentLen (keptHistory cfg messages) := by
          by_contra hc
          push_neg at hc
          exact h1 ⟨hc, by omega⟩
        rw [hcl]
        omega
  · intro m hlast hbig
    have hrev : (recentHistory cfg messages).reverse.head? = some m := by
      unfold recentHistory
      rw [List.reverse_drop, List.head?_take, if_neg ?pos]
      · rw [← List.getLast?_eq_head?_reverse]
        exact hlast
      case pos =>
        have hne : trimHistory messages ≠ [] := by
          intro hnil
          rw [hnil] at hlast
          simp at hlast
        have hlen : 0 < (trimHistory messages).length := List.length_pos.mpr hne
        omega
    obtain ⟨t, ht⟩ : ∃ t, (recentHistory cfg messages).reverse = m :: t := by
      cases hrv : (recentHistory cfg messages).reverse with
      | nil => rw [hrv] at hrev; simp at hrev
      | cons a t =>
        rw [hrv] at hrev
        simp only [List.head?_cons, Option.some_inj] at hrev
        exact ⟨t, by rw [hrev]⟩
    have hstep : keepNewest cfg.MAX_PROMPT_CHARS ((recentHistory cfg messages).reverse) =
        [{ m with content := some ((m.content.getD []).take cfg.MAX_PROMPT_CHARS) }] := by
      rw [ht]
      have hc : ¬ (m.content.getD []).length ≤ cfg.MAX_PROMPT_CHARS := by
        simp only [contentLen] at hbig
        omega
      have hz : 0 < (m.content.getD []).length := by
        simp only [contentLen] at hbig
        omega
      simp [keepNewest, hc, hz]
    constructor
    · unfold keptHistory
      rw [hstep]
      simp
    · unfold keptHistory
      rw [hstep]
      simp only [List.reverse_singleton, totalContentLen, List.map_cons, List.map_nil,
        List.sum_cons, List.sum_nil, contentLen, Option.getD_some, List.length_take]
      simp only [contentLen] at hbig
      omega

/-- Witness for `c1_amended`: instantiates the newest-turn-exceeds
branch at a 12-character user turn against a 10-character budget. -/
theorem c1_witness :
    ((trimHistory [c1WitnessTurn]).getLast? = some c1WitnessTurn ∧
      (10 : Nat) < contentLen c1WitnessTurn) ∧
    (keptHistory { MAX_PROMPT_CHARS := 10 } [c1WitnessTurn] =
        [{ c1WitnessTurn with content := some ((c1WitnessTurn.content.getD []).take 10) }] ∧
      totalContentLen (keptHistory { MAX_PROMPT_CHARS := 10 } [c1WitnessTurn]) = 10) :=
  ⟨⟨by decide, by decide⟩,
    (c1_amended { MAX_PROMPT_CHARS := 10 } [c1WitnessTurn]).2.2 c1WitnessTurn
      (by decide) (by decide)⟩

/-- C2, as stated, at one concrete input: with `max_prompt_chars = 100`,
a 200-character system turn and a 50-character user turn, the output's
system turn is truncated to the 50 leftover characters — less than
`min(200, 128) = 128`.  The 128-character floor only applies when *no*
budget remains; a small positive remainder truncates below the claimed
floor. -/
theorem c2_counterexample :
    ¬ (∃ t rest, trimMessages { MAX_PROMPT_CHARS := 100 } [c2CexSystem, c2CexUser] = t :: rest ∧
        t.role = pyStr "system" ∧
        min (contentLen c2CexSystem) 128 ≤ contentLen t) := by
  rintro ⟨t, rest, heq, -, hmin⟩
  rw [show trimMessages { MAX_PROMPT_CHARS := 100 } [c2CexSystem, c2CexUser] =
      [{ c2CexSystem with content := some (List.replicate 50 's') }, c2CexUser] from by decide] at heq
  injection heq with h1 h2
  rw [← h1] at hmin
  exact absurd hmin (by decide)

/-- C2 (amended): when the input begins with a system turn, the output
always begins with a system turn whose content is a prefix of the
original, of length `min(original, remaining)` when some budget
`remaining = max_prompt_chars − charsUsed(kept history)` is left, and
`min(original, 128)` when none is left.  The claimed
`min(original, 128)` floor therefore holds exactly when `remaining = 0`
or `remaining ≥ 128`, but not for `0 < remaining < 128`. -/
theorem c2_amended (cfg : Config) (messages : List Turn) (sm : Turn)
    (hhead : messages.head? = some sm) (hrole : sm.role = pyStr "system") :
    ∃ t, trimMessages cfg messages = t :: keptHistory cfg messages ∧
      t.role = sm.role ∧
      (t.content.getD []) = (sm.content.getD []).take
        (if cfg.MAX_PROMPT_CHARS - totalContentLen (keptHistory cfg messages) = 0 then 128
         else cfg.MAX_PROMPT_CHARS - totalContentLen (keptHistory cfg messages)) ∧
      ((cfg.MAX_PROMPT_CHARS - totalContentLen (keptHistory cfg messages) = 0 ∨
          128 ≤ cfg.MAX_PROMPT_CHARS - totalContentLen (keptHistory cfg messages)) →
        min ((sm.content.getD []).length) 128 ≤ (t.content.getD []).length) := by
  have hsys : trimSystem messages = some sm := by
    cases messages with
    | nil => simp at hhead
    | cons m rest =>
      simp only [List.head?_cons, Option.some_inj] at hhead
      subst hhead
      simp [trimSystem, hrole]
  have htm := trimMessages_some cfg messages sm hsys
  by_cases h0 : cfg.MAX_PROMPT_CHARS - totalContentLen (keptHistory cfg messages) = 0
  · rw [if_neg (by omega), if_pos h0] at htm
    refine ⟨_, htm, rfl, ?_, ?_⟩
    · have hproj : ({ sm with content := some ((sm.content.getD []).take 128) } : Turn).content =
          some ((sm.content.getD []).take 128) := rfl
      rw [hproj, if_pos h0]
      rfl
    · intro _
      have hproj : ({ sm with content := some ((sm.content.getD []).take 128) } : Turn).content =
          some ((sm.content.getD []).take 128) := rfl
      rw [hproj]
      simp only [Option.getD_some, List.length_take]
      omega
  · by_cases hlt : cfg.MAX_PROMPT_CHARS - totalContentLen (keptHistory cfg messages) <
        (sm.content.getD []).length
    · rw [if_pos ⟨hlt, by omega⟩] at htm
      refine ⟨_, htm, rfl, ?_, ?_⟩
      · have hproj : ({ sm with content := some ((sm.content.getD []).take
            (cfg.MAX_PROMPT_CHARS - totalContentLen (keptHistory cfg messages))) } : Turn).content =
            some ((sm.content.getD []).take
              (cfg.MAX_PROMPT_CHARS - totalContentLen (keptHistory cfg messages))) := rfl
        rw [hproj, if_neg h0]
        rfl
      · intro hcase
        have hproj : ({ sm with content := some ((sm.content.getD []).take
            (cfg.MAX_PROMPT_CHARS - totalContentLen (keptHistory cfg messages))) } : Turn).content =
            some ((sm.content.getD []).take
              (cfg.MAX_PROMPT_CHARS - totalContentLen (keptHistory cfg messages))) := rfl
        rw [hproj]
        simp only [Option.getD_some, List.length_take]
        rcases hcase with hc | hc
        · exact absurd hc h0
        · omega
    · rw [if_neg (by omega), if_neg h0] at htm
      refine ⟨sm, htm, rfl, ?_, ?_⟩
      · rw [if_neg h0, List.take_of_length_le (by omega)]
      · intro _
        omega

/-- Witness for `c2_amended` at a concrete input: the 200-character
system turn over an empty history against the default 28000-character
budget (the whole budget remains, so the system content is kept
whole). -/
theorem c2_witness :
    (([c2CexSystem].head? = some c2CexSystem) ∧ c2CexSystem.role = pyStr "system") ∧
    (∃ t, trimMessages {} [c2CexSystem] = t :: keptHistory {} [c2CexSystem] ∧
      t.role = c2CexSystem.role ∧
      (t.content.getD []) = (c2CexSystem.content.getD []).take
        (if ({} : Config).MAX_PROMPT_CHARS - totalContentLen (keptHistory {} [c2CexSystem]) = 0
         then 128
         else ({} : Config).MAX_PROMPT_CHARS - totalContentLen (keptHistory {} [c2CexSystem])) ∧
      ((({} : Config).MAX_PROMPT_CHARS - totalContentLen (keptHistory {} [c2CexSystem]) = 0 ∨
          128 ≤ ({} : Config).MAX_PROMPT_CHARS - totalContentLen (keptHistory {} [c2CexSystem])) →
        min ((c2CexSystem.content.getD []).length) 128 ≤ (t.content.getD []).length)) :=
  ⟨⟨rfl, by decide⟩, c2_amended {} [c2CexSystem] c2CexSystem rfl (by decide)⟩

/-- Shifting the cap iteration by one step. -/
theorem capIter_capStep (cap : Nat) (n : Nat) :
    capIter (capStep cap) n = capIter cap (n + 1) := by
  induction n with
  | zero => rfl
  | succ n ih =>
    show capStep (capIter (capStep cap) n) = capStep (capIter cap (n + 1))
    rw [ih]

/-- Unfolding of the retry loop when every attempt raises a
capacity-classified error: `fuel` retries occur, the `k`-th (from
`attempt`) sleeping `base_delay · 2^(attempt+k)` and reducing the cap to
`capIter cap (k+1)`, after which the last error is re-raised. -/
theorem chatCompletionGo_allCapacity (cfg : Config) (send : Nat → List Turn → SendOutcome)
    (e : Nat → PyStr)
    (hsend : ∀ k msgs, send k msgs = .failure (e k))
    (hcap : ∀ k, isCapacitySignal (e k) = true) :
    ∀ (fuel attempt cap : Nat) (msgs : List Turn) (lastErr : Option PyStr),
      chatCompletionGo cfg send fuel attempt cap msgs lastErr =
        ((List.range fuel).map fun k =>
            (cfg.OPENAI_RETRY_BASE_DELAY_SEC * 2 ^ (attempt + k), capIter cap (k + 1)),
          .error (if fuel = 0 then lastErr.getD (pyStr "Chat completion failed")
                  else e (attempt + fuel - 1))) := by
  intro fuel
  induction fuel with
  | zero =>
    intro attempt cap msgs lastErr
    simp [chatCompletionGo]
  | succ fuel ih =>
    intro attempt cap msgs lastErr
    rw [chatCompletionGo, hsend]
    simp only [hcap, if_true, ih]
    rw [Prod.mk.injEq]
    constructor
    · rw [List.range_succ_eq_map, List.map_cons, List.map_map]
      simp only [List.cons.injEq]
      constructor
      · simp [capIter, capStep]
      · apply List.map_congr_left
        intro k hk
        simp only [Function.comp_apply, Nat.succ_eq_add_one, Prod.mk.injEq]
        constructor
        · have harg : attempt + 1 + k = attempt + (k + 1) := by omega
          rw [harg]
        · rw [capIter_capStep]
    · rcases Nat.eq_zero_or_pos fuel with h | h
      · subst h
        simp
      · rw [if_neg (by omega), if_neg (by omega)]
        have harg : attempt + 1 + fuel - 1 = attempt + (fuel + 1) - 1 := by omega
        rw [harg]

/-- C3 (confirmed): during one `chat_completion` call in which every
attempt fails with a capacity-exceeded signal, the backoff sleeps are
exactly `retry_base_delay · 2^(attempt−1)` for attempts `1..n`
(strictly increasing, given a positive base delay), each retry reduces
the response-token cap to `max(128, ⌊0.8 · previous⌋)`, and after
`retry_max_attempts` failed attempts the call raises the last capacity
error instead of returning. -/
theorem c3_confirmed (cfg : Config) (send : Nat → List Turn → SendOutcome) (e : Nat → PyStr)
    (maxTokens0 : Nat) (messages : List Turn)
    (hbase : 0 < cfg.OPENAI_RETRY_BASE_DELAY_SEC)
    (hattempts : 1 ≤ cfg.OPENAI_RETRY_MAX_ATTEMPTS)
    (hsend : ∀ k msgs, send k msgs = .failure (e k))
    (hcap : ∀ k, isCapacitySignal (e k) = true) :
    (chatCompletionLoop cfg send maxTokens0 messages).1.map Prod.fst =
      (List.range cfg.OPENAI_RETRY_MAX_ATTEMPTS).map
        (fun k => cfg.OPENAI_RETRY_BASE_DELAY_SEC * 2 ^ k) ∧
    List.Chain' (· < ·) ((chatCompletionLoop cfg send maxTokens0 messages).1.map Prod.fst) ∧
    (chatCompletionLoop cfg send maxTokens0 messages).1.map Prod.snd =
      (List.range cfg.OPENAI_RETRY_MAX_ATTEMPTS).map (fun k => capIter maxTokens0 (k + 1)) ∧
    (∀ k, capIter maxTokens0 (k + 1) = max 128 (capIter maxTokens0 k * 4 / 5)) ∧
    (chatCompletionLoop cfg send maxTokens0 messages).2 =
      .error (e (cfg.OPENAI_RETRY_MAX_ATTEMPTS - 1)) := by
  have hgo := chatCompletionGo_allCapacity cfg send e hsend hcap
      cfg.OPENAI_RETRY_MAX_ATTEMPTS 0 maxTokens0 messages none
  unfold chatCompletionLoop
  rw [hgo]
  have hfst : ((List.range cfg.OPENAI_RETRY_MAX_ATTEMPTS).map fun k =>
        (cfg.OPENAI_RETRY_BASE_DELAY_SEC * 2 ^ (0 + k),
          capIter maxTokens0 (k + 1))).map Prod.fst =
      (List.range cfg.OPENAI_RETRY_MAX_ATTEMPTS).map
        (fun k => cfg.OPENAI_RETRY_BASE_DELAY_SEC * 2 ^ k) := by
    rw [List.map_map]
    apply List.map_congr_left
    intro k hk
    simp
  refine ⟨hfst, ?_, ?_, ?_, ?_⟩
  · rw [hfst]
    obtain ⟨n, hn⟩ := Nat.exists_eq_succ_of_ne_zero (show cfg.OPENAI_RETRY_MAX_ATTEMPTS ≠ 0 by omega)
    rw [hn, List.chain'_map, List.chain'_range_succ]
    intro m hm
    have h2 : (0:ℚ) < 2 ^ m := pow_pos (by norm_num) m
    rw [pow_succ]
    nlinarith
  · rw [List.map_map]
    apply List.map_congr_left
    intro k hk
    simp
  · intro k
    rfl
  · rw [if_neg (by omega)]
    have harg : 0 + cfg.OPENAI_RETRY_MAX_ATTEMPTS - 1 = cfg.OPENAI_RETRY_MAX_ATTEMPTS - 1 := by
      omega
    rw [harg]

/-- Witness for `c3_confirmed`: the default config (3 attempts, base
delay 2.0) against a backend that always raises `rate_limit`. -/
theorem c3_witness :
    ((0:ℚ) < ({} : Config).OPENAI_RETRY_BASE_DELAY_SEC ∧
      1 ≤ ({} : Config).OPENAI_RETRY_MAX_ATTEMPTS) ∧
    ((chatCompletionLoop {} c3WitnessSend 600 []).1.map Prod.fst =
      (List.range ({} : Config).OPENAI_RETRY_MAX_ATTEMPTS).map
        (fun k => ({} : Config).OPENAI_RETRY_BASE_DELAY_SEC * 2 ^ k) ∧
    List.Chain' (· < ·) ((chatCompletionLoop {} c3WitnessSend 600 []).1.map Prod.fst) ∧
    (chatCompletionLoop {} c3WitnessSend 600 []).1.map Prod.snd =
      (List.range ({} : Config).OPENAI_RETRY_MAX_ATTEMPTS).map (fun k => capIter 600 (k + 1)) ∧
    (∀ k, capIter 600 (k + 1) = max 128 (capIter 600 k * 4 / 5)) ∧
    (chatCompletionLoop {} c3WitnessSend 600 []).2 =
      .error ((fun _ => pyStr "rate_limit") (({} : Config).OPENAI_RETRY_MAX_ATTEMPTS - 1))) :=
  ⟨⟨by decide, by decide⟩,
    c3_confirmed {} c3WitnessSend (fun _ => pyStr "rate_limit") 600 []
      (by decide) (by decide) (fun _ _ => rfl)
      (fun _ => show isCapacitySignal (pyStr "rate_limit") = true by decide)⟩

theorem setLastContent_cons_of_ne_nil (m : Turn) (l : List Turn) (c : PyStr)
    (h : l ≠ []) : setLastContent (m :: l) c = m :: setLastContent l c := by
  cases l with
  | nil => exact absurd rfl h
  | cons a l' => rfl

theorem setLastContent_append_singleton (xs : List Turn) (t : Turn) (c : PyStr) :
    setLastContent (xs ++ [t]) c = xs ++ [{ t with content := some c }] := by
  induction xs with
  | nil => rfl
  | cons m rest ih =>
    rw [List.cons_append, setLastContent_cons_of_ne_nil m (rest ++ [t]) c (by simp), ih]
    rfl

/-- The in-place system overwrite only happens when the first entry is
a system turn; otherwise the history list is untouched by this step. -/
theorem chatSystemMessages_snd_of_not_system (sc : PyStr) (hist1 : List Turn)
    (h : ∀ m, hist1.head? = some m → m.role ≠ pyStr "system") :
    (chatSystemMessages sc hist1).2 = hist1 := by
  unfold chatSystemMessages
  cases hist1 with
  | nil => rfl
  | cons m rest =>
    have hm := h m rfl
    simp [hm]

/-- Whatever the history head looks like, the message list built by the
system-prompt step is a non-empty prefix followed by the just-appended
final turn (which is never a system turn). -/
theorem chatSystemMessages_fst_shape (sc : PyStr) (xs : List Turn) (t : Turn)
    (ht : t.role ≠ pyStr "system") :
    ∃ pre : List Turn, pre ≠ [] ∧ (chatSystemMessages sc (xs ++ [t])).1 = pre ++ [t] := by
  unfold chatSystemMessages
  cases xs with
  | nil =>
    refine ⟨[{ role := pyStr "system", content := some sc }], by simp, ?_⟩
    simp [ht]
  | cons m rest =>
    by_cases hmrole : m.role = pyStr "system"
    · refine ⟨{ m with content := some sc } :: rest, by simp, ?_⟩
      simp [hmrole]
    · refine ⟨{ role := pyStr "system", content := some sc } :: m :: rest, by simp, ?_⟩
      simp [hmrole]

/-- When the conversation history holds no leading system turn (it only
ever receives user/assistant appends), the preparation phase leaves the
history as the old history plus the freshly appended user turn, whose
content is the original message or its RAG-enhanced replacement. -/
theorem chatPrepare_history (cfg : Config) (env : ChatEnv) (st : ChatState)
    (userMessage : PyStr) (useRag translateQueries : Bool)
    (hns : ∀ m, st.history.head? = some m → m.role ≠ pyStr "system") :
    ∃ c, (chatPrepare cfg env st userMessage useRag translateQueries).history =
      st.history ++ [{ role := pyStr "user", content := some c }] := by
  unfold chatPrepare
  dsimp only
  have h2 := chatSystemMessages_snd_of_not_system
      (env.buildSystemPrompt (st.history ++ [userTurn userMessage]).length)
      (st.history ++ [userTurn userMessage]) ?hh
  case hh =>
    intro m hm
    cases hh : st.history with
    | nil =>
      rw [hh] at hm
      simp only [List.nil_append, List.head?_cons, Option.some_inj] at hm
      rw [← hm]
      simp [userTurn, pyStr]
    | cons a rest =>
      rw [hh] at hm
      simp only [List.cons_append, List.head?_cons, Option.some_inj] at hm
      rw [← hm]
      exact hns a (by rw [hh]; rfl)
  rw [h2]
  by_cases hctx : (if useRag then getRelevantContext cfg
      (env.ragDocs (chatSearchQuery env userMessage translateQueries)) else []) = []
  · rw [if_pos hctx]
    exact ⟨userMessage, rfl⟩
  · rw [if_neg hctx]
    exact ⟨_, setLastContent_append_singleton _ _ _⟩

theorem getRelevantContext_length_le (cfg : Config) (docs : List PyStr) :
    (getRelevantContext cfg docs).length ≤ cfg.RAG_CONTEXT_MAX_CHARS ∨
      getRelevantContext cfg docs = [] := by
  cases docs with
  | nil => right; rfl
  | cons d rest =>
    dsimp only [getRelevantContext]
    split_ifs with h
    · left
      rw [List.length_take]
      omega
    · left
      omega

theorem pyInsert_one_cons (t y : Turn) (l : List Turn) :
    pyInsert 1 t (y :: l) = y :: t :: l := by
  simp [pyInsert]

/-- With RAG enabled and a non-empty retrieved context, the prepared
message list ends with the user turn rewritten to the enhanced
content. -/
theorem chatPrepare_messages (cfg : Config) (env : ChatEnv) (st : ChatState)
    (userMessage : PyStr) (translateQueries : Bool)
    (hne : getRelevantContext cfg
      (env.ragDocs (chatSearchQuery env userMessage translateQueries)) ≠ []) :
    ∃ pre : List Turn, pre ≠ [] ∧
      (chatPrepare cfg env st userMessage true translateQueries).messages =
        pre ++ [{ role := pyStr "user",
                  content := some (enhancedMessage (getRelevantContext cfg
                    (env.ragDocs (chatSearchQuery env userMessage translateQueries)))
                    userMessage) }] := by
  unfold chatPrepare
  dsimp only
  have hctxeq : (if cfg.RAG_CONTEXT_MAX_CHARS < (getRelevantContext cfg
        (env.ragDocs (chatSearchQuery env userMessage translateQueries))).length then
      (getRelevantContext cfg
        (env.ragDocs (chatSearchQuery env userMessage translateQueries))).take
        cfg.RAG_CONTEXT_MAX_CHARS
    else getRelevantContext cfg (env.ragDocs (chatSearchQuery env userMessage translateQueries))) =
      getRelevantContext cfg (env.ragDocs (chatSearchQuery env userMessage translateQueries)) := by
    rcases getRelevantContext_length_le cfg
        (env.ragDocs (chatSearchQuery env userMessage translateQueries)) with h | h
    · exact if_neg (by omega)
    · exact absurd h hne
  obtain ⟨pre, hpre, hm1⟩ := chatSystemMessages_fst_shape
      (env.buildSystemPrompt (st.history ++ [userTurn userMessage]).length)
      st.history (userTurn userMessage) (by simp [userTurn, pyStr])
  simp only [if_true, hctxeq, if_neg hne, hm1, setLastContent_append_singleton]
  by_cases hsum : st.summary = []
  · rw [if_pos hsum]
    exact ⟨pre, hpre, rfl⟩
  · rw [if_neg hsum]
    cases hp : pre with
    | nil => exact absurd hp hpre
    | cons p0 pre' =>
      rw [List.cons_append, pyInsert_one_cons]
      exact ⟨p0 :: summaryTurn st.summary :: pre', by simp, by simp [userTurn]⟩

/-- C9 (amended): with RAG enabled and a non-empty retrieved context,
the context is the `"Document i:\n<text>"` blocks joined by blank
lines truncated to the first `rag_context_max_chars` characters, and
the outgoing user turn's content is exactly `"Context:\n" + context +
"\n\nUser question: " + original` — a space after the colon, not the
newline the claim states. -/
theorem c9_amended (cfg : Config) (env : ChatEnv) (st : ChatState) (userMessage : PyStr)
    (translateQueries : Bool)
    (hne : getRelevantContext cfg
      (env.ragDocs (chatSearchQuery env userMessage translateQueries)) ≠ []) :
    ((chatPrepare cfg env st userMessage true translateQueries).messages.getLast?.bind
        Turn.content) =
      some (enhancedMessage (getRelevantContext cfg
        (env.ragDocs (chatSearchQuery env userMessage translateQueries))) userMessage) ∧
    (∀ c u : PyStr, enhancedMessage c u =
      pyStr "Context:\n" ++ c ++ pyStr "\n\nUser question: " ++ u) ∧
    (∀ docs : List PyStr, docs ≠ [] →
      getRelevantContext cfg docs =
        (pyJoin (pyStr "\n\n") (((List.range docs.length).zip docs).map fun p =>
          pyStr "Document " ++ pyStr (toString (p.1 + 1)) ++ pyStr ":\n" ++ p.2)).take
          cfg.RAG_CONTEXT_MAX_CHARS) := by
  refine ⟨?_, fun c u => rfl, ?_⟩
  · obtain ⟨pre, hpre, hm⟩ := chatPrepare_messages cfg env st userMessage translateQueries hne
    rw [hm, List.getLast?_concat]
    rfl
  · intro docs hdocs
    cases docs with
    | nil => exact absurd rfl hdocs
    | cons d rest =>
      dsimp only [getRelevantContext]
      split_ifs with h
      · rfl
      · rw [List.take_of_length_le (by omega)]

/-- C9, as stated, at one concrete input: the code separates the
context from the question with `"\n\nUser question: "` (trailing
space), not the claimed `"\n\nUser question:\n"` (trailing newline),
so the outgoing user turn's content differs from the claimed string. -/
theorem c9_counterexample :
    ¬ (((chatPrepare {} c9CexEnv { history := [], summary := [] } (pyStr "hi") true
          false).messages.getLast?.bind Turn.content) =
        some (pyStr "Context:\n" ++ getRelevantContext {} [pyStr "alpha"] ++
          pyStr "\n\nUser question:\n" ++ pyStr "hi")) := by
  decide

/-- Witness for `c9_amended` at the concrete retrieval environment of
the counterexample. -/
theorem c9_witness :
    (getRelevantContext {} (c9CexEnv.ragDocs (chatSearchQuery c9CexEnv (pyStr "hi") false)) ≠ []) ∧
    (((chatPrepare {} c9CexEnv { history := [], summary := [] } (pyStr "hi") true
        false).messages.getLast?.bind Turn.content) =
      some (enhancedMessage (getRelevantContext {}
        (c9CexEnv.ragDocs (chatSearchQuery c9CexEnv (pyStr "hi") false))) (pyStr "hi")) ∧
    (∀ c u : PyStr, enhancedMessage c u =
      pyStr "Context:\n" ++ c ++ pyStr "\n\nUser question: " ++ u) ∧
    (∀ docs : List PyStr, docs ≠ [] →
      getRelevantContext {} docs =
        (pyJoin (pyStr "\n\n") (((List.range docs.length).zip docs).map fun p =>
          pyStr "Document " ++ pyStr (toString (p.1 + 1)) ++ pyStr ":\n" ++ p.2)).take
          ({} : Config).RAG_CONTEXT_MAX_CHARS)) :=
  ⟨by decide,
    c9_amended {} c9CexEnv { history := [], summary := [] } (pyStr "hi") false (by decide)⟩

/-- C10 (confirmed): when a `chat` call fails internally after the user
turn has been appended (the function-caller initialisation step, which
runs before the append, must not be the failure), the returned error
result leaves `conversation_history` with that user turn (its content
possibly rewritten by RAG enhancement through the shared dict) as its
last element, no assistant turn is appended, and the rolling summary is
unchanged — no rollback happens.  The history is assumed to start with
no system turn, which holds for every reachable state (only user and
assistant turns are ever appended to it). -/
theorem c10_confirmed (cfg : Config) (env : ChatEnv) (st : ChatState) (userMessage : PyStr)
    (useRag useFunctions translateQueries : Bool)
    (hns : ∀ m, st.history.head? = some m → m.role ≠ pyStr "system")
    (hinit : useFunctions = false ∨ env.ensureFunctionCaller = .ok ())
    (st' : ChatState) (resp err : PyStr)
    (hfail : chatModel cfg env st userMessage useRag useFunctions translateQueries =
      (st', .failure resp err)) :
    (∃ c, st'.history = st.history ++ [{ role := pyStr "user", content := some c }]) ∧
    st'.summary = st.summary := by
  have hok : (if useFunctions then env.ensureFunctionCaller else Except.ok ()) = .ok () := by
    rcases hinit with h | h
    · rw [h]
      rfl
    · cases useFunctions with
      | false => rfl
      | true => simpa using h
  obtain ⟨c, hc⟩ := chatPrepare_history cfg env st userMessage useRag translateQueries hns
  simp only [chatModel, hok] at hfail
  cases h2 : env.firstCall (trimMessages cfg
      (chatPrepare cfg env st userMessage useRag translateQueries).messages) with
  | error e =>
    simp only [h2] at hfail
    injection hfail with ha hb
    rw [← ha]
    exact ⟨⟨c, hc⟩, rfl⟩
  | ok response =>
    simp only [h2] at hfail
    cases h3 : response.functionCall with
    | some fc =>
      simp only [h3] at hfail
      cases h4 : env.secondCall (trimMessages cfg
          (trimMessages cfg (chatPrepare cfg env st userMessage useRag translateQueries).messages ++
            [assistantFcTurn fc,
             functionResultTurn (executeFunctionCall env.fnEnv fc)])) with
      | error e =>
        simp only [h4] at hfail
        injection hfail with ha hb
        rw [← ha]
        exact ⟨⟨c, hc⟩, rfl⟩
      | ok fr =>
        simp only [h4] at hfail
        injection hfail with ha hb
        exact absurd hb (by simp)
    | none =>
      simp only [h3] at hfail
      injection hfail with ha hb
      exact absurd hb (by simp)

/-- C6 (confirmed): a `chat` call always returns a dict — every modelled
internal failure is caught by the outermost handler and converted into
`{response: "I apologize, but I encountered an error: <e>", error: <e>}`
rather than raised. -/
theorem c6_confirmed (cfg : Config) (env : ChatEnv) (st : ChatState) (userMessage : PyStr)
    (useRag useFunctions translateQueries : Bool) :
    (∃ r fcs ctx u m, (chatModel cfg env st userMessage useRag useFunctions translateQueries).2 =
        .success r fcs ctx u m) ∨
    (∃ e, (chatModel cfg env st userMessage useRag useFunctions translateQueries).2 =
        .failure (apologyMessage e) e) := by
  cases h1 : (if useFunctions then env.ensureFunctionCaller else Except.ok ()) with
  | error e =>
    right
    exact ⟨e, by simp only [chatModel, h1]⟩
  | ok u =>
    cases h2 : env.firstCall (trimMessages cfg
        (chatPrepare cfg env st userMessage useRag translateQueries).messages) with
    | error e =>
      right
      exact ⟨e, by simp only [chatModel, h1, h2]⟩
    | ok response =>
      cases h3 : response.functionCall with
      | some fc =>
        cases h4 : env.secondCall (trimMessages cfg
            (trimMessages cfg (chatPrepare cfg env st userMessage useRag translateQueries).messages ++
              [assistantFcTurn fc, functionResultTurn (executeFunctionCall env.fnEnv fc)])) with
        | error e =>
          right
          exact ⟨e, by simp only [chatModel, h1, h2, h3, h4]⟩
        | ok fr =>
          left
          exact ⟨_, _, _, _, _, by simp only [chatModel, h1, h2, h3, h4]; rfl⟩
      | none =>
        left
        exact ⟨_, _, _, _, _, by simp only [chatModel, h1, h2, h3]; rfl⟩

/-- Witness for `c10_confirmed`: an empty starting state against a
backend whose first call always raises. -/
theorem c10_witness :
    ((∀ m : Turn, emptyChatState.history.head? = some m → m.role ≠ pyStr "system") ∧
      ((false : Bool) = false ∨ c10WitnessEnv.ensureFunctionCaller = .ok ()) ∧
      chatModel {} c10WitnessEnv emptyChatState (pyStr "hi") false false false =
        (c10AfterState, .failure (apologyMessage (pyStr "boom")) (pyStr "boom"))) ∧
    ((∃ c, c10AfterState.history =
        emptyChatState.history ++ [{ role := pyStr "user", content := some c }]) ∧
      c10AfterState.summary = emptyChatState.summary) :=
  ⟨⟨by intro m hm; simp [emptyChatState] at hm, Or.inl rfl, by decide⟩,
    c10_confirmed {} c10WitnessEnv emptyChatState (pyStr "hi") false false false
      (by intro m hm; simp [emptyChatState] at hm) (Or.inl rfl)
      c10AfterState (apologyMessage (pyStr "boom")) (pyStr "boom") (by decide)⟩

/-- C5 (confirmed): when the first backend response carries a
function-call request and the dispatched registered function fails,
`execute_function_call` returns `{function_name, result: "Error: <e>",
status: "error"}` instead of raising; the chat flow appends the
assistant function-call turn and a function-role turn carrying the
serialized error payload, still issues the second backend call (made
without function definitions), and its content becomes the final
answer. -/
theorem c5_confirmed (cfg : Config) (env : ChatEnv) (st : ChatState) (userMessage : PyStr)
    (useRag translateQueries : Bool)
    (hinit : env.ensureFunctionCaller = .ok ())
    (response : Response) (fc : FunctionCallDict) (n : PyStr)
    (args : List (PyStr × FCValue)) (f : List (PyStr × FCValue) → Except PyStr FCValue)
    (err : PyStr) (finalResponse : Response)
    (hfirst : env.firstCall (trimMessages cfg
      (chatPrepare cfg env st userMessage useRag translateQueries).messages) = .ok response)
    (hfc : response.functionCall = some fc)
    (hname : fc.name = some n)
    (hargs : (match fc.arguments with
      | .rawStr s => env.fnEnv.jsonLoads s
      | .mapping m => Except.ok m) = Except.ok args)
    (hlookup : List.lookup n env.fnEnv.registered = some f)
    (hf : f args = .error err)
    (hsecond : env.secondCall (trimMessages cfg
      (trimMessages cfg (chatPrepare cfg env st userMessage useRag translateQueries).messages ++
        [assistantFcTurn fc,
         functionResultTurn { functionName := some n,
                              result := .str (pyStr "Error: " ++ err),
                              status := pyStr "error" }])) =
      .ok finalResponse) :
    executeFunctionCall env.fnEnv fc =
      { functionName := some n,
        result := .str (pyStr "Error: " ++ err),
        status := pyStr "error" } ∧
    functionResultTurn { functionName := some n,
                         result := .str (pyStr "Error: " ++ err),
                         status := pyStr "error" } =
      { role := pyStr "function",
        name := some n,
        content := some (jsonDumps (.str (pyStr "Error: " ++ err))) } ∧
    (chatModel cfg env st userMessage useRag true translateQueries).2 =
      .success finalResponse.content
        [{ functionName := some n,
           result := .str (pyStr "Error: " ++ err),
           status := pyStr "error" }]
        (decide ((chatPrepare cfg env st userMessage useRag translateQueries).context ≠ []))
        response.usage response.model := by
  have hbody : executeFunctionCallBody env.fnEnv fc = .error err := by
    unfold executeFunctionCallBody
    rw [hargs]
    simp only [hname, hlookup, hf]
  have hexec : executeFunctionCall env.fnEnv fc =
      { functionName := some n,
        result := .str (pyStr "Error: " ++ err),
        status := pyStr "error" } := by
    unfold executeFunctionCall
    rw [hbody, hname]
  refine ⟨hexec, rfl, ?_⟩
  simp only [chatModel, if_true, hinit, hfirst, hfc, hexec, hsecond]

/-- Witness for `c5_confirmed`: scenario D of the specification — the
backend requests `get_price(coin_id="bitcoin")`, the registered
function fails with a lookup error, and the second call still produces
the final answer. -/
theorem c5_witness :
    (c5Env.ensureFunctionCaller = .ok () ∧ c5FirstResponse.functionCall = some c5Fc ∧
      c5Fc.name = some (pyStr "get_price") ∧
      c5PriceFn [(pyStr "coin_id", .str (pyStr "bitcoin"))] =
        .error (pyStr "lookup error")) ∧
    (executeFunctionCall c5Env.fnEnv c5Fc =
      { functionName := some (pyStr "get_price"),
        result := .str (pyStr "Error: " ++ pyStr "lookup error"),
        status := pyStr "error" } ∧
    functionResultTurn { functionName := some (pyStr "get_price"),
                         result := .str (pyStr "Error: " ++ pyStr "lookup error"),
                         status := pyStr "error" } =
      { role := pyStr "function",
        name := some (pyStr "get_price"),
        content := some (jsonDumps (.str (pyStr "Error: " ++ pyStr "lookup error"))) } ∧
    (chatModel {} c5Env emptyChatState (pyStr "price of bitcoin?") false true false).2 =
      .success c5FinalResponse.content
        [{ functionName := some (pyStr "get_price"),
           result := .str (pyStr "Error: " ++ pyStr "lookup error"),
           status := pyStr "error" }]
        (decide ((chatPrepare {} c5Env emptyChatState (pyStr "price of bitcoin?")
          false false).context ≠ []))
        c5FirstResponse.usage c5FirstResponse.model) :=
  ⟨⟨rfl, rfl, rfl, rfl⟩,
    c5_confirmed {} c5Env emptyChatState (pyStr "price of bitcoin?") false false rfl
      c5FirstResponse c5Fc (pyStr "get_price")
      [(pyStr "coin_id", .str (pyStr "bitcoin"))] c5PriceFn (pyStr "lookup error")
      c5FinalResponse rfl rfl rfl rfl rfl rfl rfl⟩


theorem windowTokenSum_append (w T : ℚ) (l1 l2 : List (ℚ × Nat)) :
    windowTokenSum w T (l1 ++ l2) = windowTokenSum w T l1 + windowTokenSum w T l2 := by
  simp [windowTokenSum, List.filter_append]

theorem windowTokenSum_le_sum (w T : ℚ) (l : List (ℚ × Nat)) :
    windowTokenSum w T l ≤ (l.map Prod.snd).sum := by
  induction l with
  | nil => simp [windowTokenSum]
  | cons e rest ih =>
    unfold windowTokenSum at ih ⊢
    rw [List.filter_cons]
    split_ifs with h
    · simp only [List.map_cons, List.sum_cons]
      omega
    · simp only [List.map_cons, List.sum_cons]
      omega

theorem windowTokenSum_cons_out (w T : ℚ) (ts : ℚ) (tok : Nat) (l : List (ℚ × Nat))
    (h : ¬ T - w ≤ ts) :
    windowTokenSum w T ((ts, tok) :: l) = windowTokenSum w T l := by
  unfold windowTokenSum
  rw [List.filter_cons, if_neg (by simpa using h)]

theorem windowTokenSum_perm (w T : ℚ) (l1 l2 : List (ℚ × Nat)) (h : l1.Perm l2) :
    windowTokenSum w T l1 = windowTokenSum w T l2 := by
  unfold windowTokenSum
  exact List.Perm.sum_eq (List.Perm.map Prod.snd (List.Perm.filter _ h))

/-- The oldest-first scan always breaks at some surviving entry when the
requested weight alone fits under the limit; the sleep is that entry's
time to expiry. -/
theorem findTokenSleep_break (tpm req : Int) (w now : ℚ) (hreq : req ≤ tpm) :
    ∀ (l : List (ℚ × Nat)) (lo : ℚ), l ≠ [] → (∀ e ∈ l, lo ≤ e.1) →
      ∃ t0 : ℚ, lo ≤ t0 ∧
        findTokenSleep tpm req w now (((l.map Prod.snd).sum : Nat) : Int) l =
          max 0 (t0 + w - now) := by
  intro l
  induction l with
  | nil => intro lo h; exact absurd rfl h
  | cons e rest ih =>
    obtain ⟨ts, tok⟩ := e
    intro lo _ hlo
    have hc : ((((ts, tok) :: rest).map Prod.snd).sum : Int) - (tok : Int) =
        (((rest.map Prod.snd).sum : Nat) : Int) := by
      simp only [List.map_cons, List.sum_cons]
      push_cast
      ring
    rw [findTokenSleep, hc]
    by_cases hbr : (((rest.map Prod.snd).sum : Nat) : Int) + req ≤ tpm
    · rw [if_pos hbr]
      exact ⟨ts, hlo (ts, tok) (by simp), rfl⟩
    · rw [if_neg hbr]
      cases hrest : rest with
      | nil =>
        rw [hrest] at hbr
        simp at hbr
        omega
      | cons e2 rest2 =>
        have hlo2 : ∀ e ∈ rest, lo ≤ e.1 := fun e he => hlo e (by simp [he])
        rw [← hrest]
        exact ih lo (by rw [hrest]; simp) hlo2

/-- Specification of the oldest-first scan on a time-sorted entry list:
once strictly more than the computed sleep has elapsed, the surviving
in-window weights together with the request fit under the limit. -/
theorem findTokenSleep_spec (tpm req : Int) (w now : ℚ) (hreq : req ≤ tpm) :
    ∀ l : List (ℚ × Nat), List.Sorted (fun a b : ℚ × Nat => a.1 ≤ b.1) l →
      ∀ tr : ℚ, now + findTokenSleep tpm req w now (((l.map Prod.snd).sum : Nat) : Int) l < tr →
        (windowTokenSum w tr l : Int) + req ≤ tpm := by
  intro l
  induction l with
  | nil =>
    intro _ tr _
    simp only [windowTokenSum, List.filter_nil, List.map_nil, List.sum_nil, Nat.cast_zero,
      zero_add]
    omega
  | cons e rest ih =>
    obtain ⟨ts, tok⟩ := e
    intro hsort tr htr
    have hsort' : List.Sorted (fun a b : ℚ × Nat => a.1 ≤ b.1) rest :=
      (List.sorted_cons.mp hsort).2
    have hlo : ∀ e ∈ rest, ts ≤ e.1 := fun e he => (List.sorted_cons.mp hsort).1 e he
    have hc : ((((ts, tok) :: rest).map Prod.snd).sum : Int) - (tok : Int) =
        (((rest.map Prod.snd).sum : Nat) : Int) := by
      simp only [List.map_cons, List.sum_cons]
      push_cast
      ring
    rw [findTokenSleep, hc] at htr
    by_cases hbr : (((rest.map Prod.snd).sum : Nat) : Int) + req ≤ tpm
    · rw [if_pos hbr] at htr
      have hout : ¬ tr - w ≤ ts := by
        have : ts + w - now ≤ max 0 (ts + w - now) := le_max_right _ _
        linarith
      rw [windowTokenSum_cons_out w tr ts tok rest hout]
      have hle := windowTokenSum_le_sum w tr rest
      have hle' : ((windowTokenSum w tr rest : Nat) : Int) ≤
          (((rest.map Prod.snd).sum : Nat) : Int) := Int.ofNat_le.mpr hle
      omega
    · rw [if_neg hbr] at htr
      have hne : rest ≠ [] := by
        intro h0
        rw [h0] at hbr
        simp at hbr
        omega
      obtain ⟨t0, ht0, heq⟩ := findTokenSleep_break tpm req w now hreq rest ts hne hlo
      rw [heq] at htr
      have hout : ¬ tr - w ≤ ts := by
        have h1 : t0 + w - now ≤ max 0 (t0 + w - now) := le_max_right _ _
        linarith
      rw [windowTokenSum_cons_out w tr ts tok rest hout]
      exact ih hsort' tr (by rw [heq]; exact htr)

/-- Single-call guarantee of the token limiter: if the call's own
estimate fits under the limit and the entry is recorded strictly after
the computed sleep has elapsed, the in-window weights right after
recording stay within the limit — for an arbitrary prior entry list. -/
theorem tokenLimiterStep_window_le (cfg : Config) (st : List (ℚ × Nat)) (c : LimiterCall)
    (hpos : 0 < cfg.OPENAI_TPM_LIMIT) (hw : 0 ≤ cfg.TPM_WINDOW_SEC)
    (hreq : c.req ≤ cfg.OPENAI_TPM_LIMIT) (husage : recordedTokens c ≤ c.req)
    (hrec : c.now + (throttleTokensIfNeeded cfg c.now st c.req).2 < c.recordAt) :
    windowTokenSum cfg.TPM_WINDOW_SEC c.recordAt (tokenLimiterStep cfg st c) ≤
      cfg.OPENAI_TPM_LIMIT := by
  have hlim : ¬ cfg.OPENAI_TPM_LIMIT = 0 := by omega
  unfold tokenLimiterStep
  unfold throttleTokensIfNeeded at hrec ⊢
  rw [if_neg hlim] at hrec ⊢
  dsimp only at hrec ⊢
  set E := st.filter (fun e => c.now - cfg.TPM_WINDOW_SEC ≤ e.1) with hE
  rw [windowTokenSum_append]
  have hsingle : windowTokenSum cfg.TPM_WINDOW_SEC c.recordAt [(c.recordAt, recordedTokens c)] =
      recordedTokens c := by
    unfold windowTokenSum
    rw [List.filter_cons, if_pos (by simp; linarith)]
    simp
  rw [hsingle]
  by_cases hcap : (cfg.OPENAI_TPM_LIMIT : Int) <
      ((E.map Prod.snd).sum : Int) + (c.req : Int)
  · rw [if_pos hcap] at hrec
    rw [if_pos hcap]
    dsimp only
    haveI : IsTotal (ℚ × Nat) (fun a b : ℚ × Nat => a.1 ≤ b.1) :=
      ⟨fun a b => le_total a.1 b.1⟩
    haveI : IsTrans (ℚ × Nat) (fun a b : ℚ × Nat => a.1 ≤ b.1) :=
      ⟨fun _ _ _ h1 h2 => le_trans h1 h2⟩
    have hperm : (sortByTime E).Perm E := List.perm_insertionSort _ E
    have hsorted : List.Sorted (fun a b : ℚ × Nat => a.1 ≤ b.1) (sortByTime E) :=
      List.sorted_insertionSort _ E
    have hsum : ((sortByTime E).map Prod.snd).sum = (E.map Prod.snd).sum :=
      List.Perm.sum_eq (List.Perm.map Prod.snd hperm)
    have hspec := findTokenSleep_spec cfg.OPENAI_TPM_LIMIT c.req cfg.TPM_WINDOW_SEC c.now
      (Int.ofNat_le.mpr hreq) (sortByTime E) hsorted c.recordAt (by rw [hsum]; exact hrec)
    rw [← windowTokenSum_perm cfg.TPM_WINDOW_SEC c.recordAt _ _ hperm]
    omega
  · rw [if_neg hcap]
    dsimp only
    have hle := windowTokenSum_le_sum cfg.TPM_WINDOW_SEC c.recordAt E
    omega

/-- Trace-level guarantee of the token limiter. -/
theorem tokenTrace_bounded (cfg : Config)
    (hpos : 0 < cfg.OPENAI_TPM_LIMIT) (hw : 0 ≤ cfg.TPM_WINDOW_SEC) :
    ∀ (calls : List LimiterCall) (lastT : ℚ) (st : List (ℚ × Nat)),
      (∀ c ∈ calls, recordedTokens c ≤ c.req ∧ c.req ≤ cfg.OPENAI_TPM_LIMIT) →
      tokenTraceValid cfg lastT st calls → tokenTraceBounded cfg st calls := by
  intro calls
  induction calls with
  | nil =>
    intro lastT st _ _
    trivial
  | cons c cs ih =>
    intro lastT st hreqs hvalid
    obtain ⟨h1, h2, h3⟩ := hvalid
    refine ⟨?_, ih c.recordAt _ (fun x hx => hreqs x (by simp [hx])) h3⟩
    exact tokenLimiterStep_window_le cfg st c hpos hw (hreqs c (by simp)).2
      (hreqs c (by simp)).1 h2

theorem windowRequestCount_append (w T : ℚ) (l1 l2 : List ℚ) :
    windowRequestCount w T (l1 ++ l2) =
      windowRequestCount w T l1 + windowRequestCount w T l2 := by
  simp [windowRequestCount, List.filter_append]

theorem windowRequestCount_le_length (w T : ℚ) (l : List ℚ) :
    windowRequestCount w T l ≤ l.length := by
  unfold windowRequestCount
  exact List.length_filter_le _ l

theorem filter_length_mono {α : Type} (p q : α → Bool) (h : ∀ a, q a = true → p a = true) :
    ∀ l : List α, (l.filter q).length ≤ (l.filter p).length := by
  intro l
  induction l with
  | nil => simp
  | cons a rest ih =>
    rw [List.filter_cons, List.filter_cons]
    by_cases hq : q a = true
    · rw [if_pos hq, if_pos (h a hq)]
      simpa using ih
    · rw [if_neg (by simpa using hq)]
      split_ifs with hp
      · simp only [List.length_cons]
        omega
      · exact ih

/-- Single-call guarantee of the request limiter, under the running
invariant that at most `rpm` timestamps were inside the window at the
previous record. -/
theorem requestLimiterStep_window_le (cfg : Config) (st : List ℚ) (c : LimiterCall)
    (lastT : ℚ) (hpos : 0 < cfg.OPENAI_RPM_LIMIT) (hw : 0 ≤ cfg.RPM_WINDOW_SEC)
    (hinv : windowRequestCount cfg.RPM_WINDOW_SEC lastT st ≤ cfg.OPENAI_RPM_LIMIT)
    (hlast : lastT ≤ c.now)
    (hrec : c.now + (throttleIfNeeded cfg c.now st).2 < c.recordAt) :
    windowRequestCount cfg.RPM_WINDOW_SEC c.recordAt (requestLimiterStep cfg st c) ≤
      cfg.OPENAI_RPM_LIMIT := by
  have hlim : ¬ cfg.OPENAI_RPM_LIMIT = 0 := by omega
  unfold throttleIfNeeded at hrec
  rw [if_neg hlim] at hrec
  dsimp only at hrec
  have hfst : (throttleIfNeeded cfg c.now st).1 =
      st.filter (fun t => c.now - cfg.RPM_WINDOW_SEC ≤ t) := by
    unfold throttleIfNeeded
    rw [if_neg hlim]
    dsimp only
    split_ifs with h
    · cases h2 : st.filter (fun t => c.now - cfg.RPM_WINDOW_SEC ≤ t) <;> rfl
    · rfl
  unfold requestLimiterStep
  rw [hfst]
  set E := st.filter (fun t => c.now - cfg.RPM_WINDOW_SEC ≤ t) with hE
  have hlenE : E.length ≤ cfg.OPENAI_RPM_LIMIT := by
    have hmono := filter_length_mono
      (fun t : ℚ => decide (lastT - cfg.RPM_WINDOW_SEC ≤ t))
      (fun t : ℚ => decide (c.now - cfg.RPM_WINDOW_SEC ≤ t))
      (fun a ha => by
        simp only [decide_eq_true_eq] at ha ⊢
        linarith) st
    unfold windowRequestCount at hinv
    calc E.length ≤ (st.filter (fun t : ℚ => decide (lastT - cfg.RPM_WINDOW_SEC ≤ t))).length :=
          hmono
      _ ≤ cfg.OPENAI_RPM_LIMIT := hinv
  rw [windowRequestCount_append]
  have hsingle : windowRequestCount cfg.RPM_WINDOW_SEC c.recordAt [c.recordAt] = 1 := by
    unfold windowRequestCount
    rw [List.filter_cons, if_pos (by simp; linarith)]
    rfl
  rw [hsingle]
  by_cases hfull : cfg.OPENAI_RPM_LIMIT ≤ E.length
  · rw [if_pos hfull] at hrec
    cases hEeq : E with
    | nil =>
      rw [hEeq] at hfull
      simp at hfull
      omega
    | cons oldest tail =>
      rw [hEeq] at hrec hlenE
      dsimp only at hrec
      simp only [List.length_cons] at hlenE
      have htr : ¬ c.recordAt - cfg.RPM_WINDOW_SEC ≤ oldest := by
        have h1 : oldest + cfg.RPM_WINDOW_SEC - c.now ≤
            max 0 (oldest + cfg.RPM_WINDOW_SEC - c.now) := le_max_right _ _
        linarith
      have hcount : windowRequestCount cfg.RPM_WINDOW_SEC c.recordAt (oldest :: tail) =
          windowRequestCount cfg.RPM_WINDOW_SEC c.recordAt tail := by
        unfold windowRequestCount
        rw [List.filter_cons, if_neg (by simpa using htr)]
      have htail := windowRequestCount_le_length cfg.RPM_WINDOW_SEC c.recordAt tail
      omega
  · rw [if_neg hfull] at hrec
    have hcount := windowRequestCount_le_length cfg.RPM_WINDOW_SEC c.recordAt E
    omega

/-- Trace-level guarantee of the request limiter. -/
theorem requestTrace_bounded (cfg : Config)
    (hpos : 0 < cfg.OPENAI_RPM_LIMIT) (hw : 0 ≤ cfg.RPM_WINDOW_SEC) :
    ∀ (calls : List LimiterCall) (lastT : ℚ) (st : List ℚ),
      windowRequestCount cfg.RPM_WINDOW_SEC lastT st ≤ cfg.OPENAI_RPM_LIMIT →
      requestTraceValid cfg lastT st calls → requestTraceBounded cfg st calls := by
  intro calls
  induction calls with
  | nil =>
    intro lastT st _ _
    trivial
  | cons c cs ih =>
    intro lastT st hinv hvalid
    obtain ⟨h1, h2, h3⟩ := hvalid
    have hstep := requestLimiterStep_window_le cfg st c lastT hpos hw hinv h1 h2
    exact ⟨hstep, ih c.recordAt _ hstep h3⟩

/-- C4 (amended): for every well-formed sequential trace of limiter
calls starting from an empty state, the request-limiter invariant (at
most `rpm_limit` timestamps inside `rpm_window` right after each call's
record) holds whenever `rpm_limit` is positive, with no condition on
the token limiter; and the token-limiter invariant (in-window recorded
weights summing to at most `tpm_limit` right after each record) holds
whenever `tpm_limit` is positive, provided additionally each call's
throttle estimate is at most `tpm_limit` and its recorded weight (the
response's reported `usage.total_tokens`, or the estimate when no usage
is reported) does not exceed that estimate. -/
theorem c4_amended (cfg : Config) (lastT : ℚ) (calls : List LimiterCall) :
    (0 < cfg.OPENAI_RPM_LIMIT → 0 ≤ cfg.RPM_WINDOW_SEC →
      requestTraceValid cfg lastT [] calls → requestTraceBounded cfg [] calls) ∧
    (0 < cfg.OPENAI_TPM_LIMIT → 0 ≤ cfg.TPM_WINDOW_SEC →
      (∀ c ∈ calls, recordedTokens c ≤ c.req ∧ c.req ≤ cfg.OPENAI_TPM_LIMIT) →
      tokenTraceValid cfg lastT [] calls → tokenTraceBounded cfg [] calls) := by
  constructor
  · intro hrpm hrw hv
    exact requestTrace_bounded cfg hrpm hrw calls lastT []
      (by simp [windowRequestCount]) hv
  · intro htpm htw hreq hv
    exact tokenTrace_bounded cfg htpm htw calls lastT [] hreq hv

/-- C4, as stated, at one concrete input: with `tpm_limit = 100`, a
single call whose estimate is `200` tokens finds no break point in the
empty entry list, so `_throttle_tokens_if_needed` returns a sleep of
`0.0` and the call proceeds; after its entry is recorded the in-window
weights sum to `200 > 100`, violating the claimed invariant even though
the limit is positive and the throttle wait (of zero) completed. -/
theorem c4_counterexample :
    ¬ (tokenTraceValid c4CexCfg 0 [] [c4CexCall] →
        tokenTraceBounded c4CexCfg [] [c4CexCall]) := by
  rw [Classical.not_imp]
  have hsleep : (throttleTokensIfNeeded c4CexCfg c4CexCall.now [] c4CexCall.req).2 = 0 := by
    norm_num [throttleTokensIfNeeded, c4CexCfg, c4CexCall, sortByTime,
      List.insertionSort, findTokenSleep]
  constructor
  · refine ⟨le_refl 0, ?_, trivial⟩
    rw [hsleep]
    norm_num [c4CexCall]
  · intro hb
    obtain ⟨h1, -⟩ := hb
    have hsum : windowTokenSum c4CexCfg.TPM_WINDOW_SEC c4CexCall.recordAt
        (tokenLimiterStep c4CexCfg [] c4CexCall) = 200 := by
      norm_num [windowTokenSum, tokenLimiterStep, recordedTokens, throttleTokensIfNeeded,
        c4CexCfg, c4CexCall, sortByTime, List.insertionSort, findTokenSleep, List.filter]
    rw [hsum] at h1
    norm_num [c4CexCfg] at h1

/-- C4 witness: the amended invariant instantiated at a concrete
positive-limit configuration and a concrete one-call trace, with every
hypothesis — the positivity and window side conditions, the per-call
weight bounds, and the validity of the trace itself — discharged, so
both bounded-window conclusions hold outright. -/
theorem c4_witness :
    requestTraceBounded c4WitCfg [] c4WitCalls ∧ tokenTraceBounded c4WitCfg [] c4WitCalls :=
  ⟨(c4_amended c4WitCfg 0 c4WitCalls).1 (by decide) (by norm_num [c4WitCfg])
      (by
        refine ⟨le_refl 0, ?_, trivial⟩
        have hsleep : (throttleIfNeeded c4WitCfg (0 : ℚ) []).2 = 0 := by
          norm_num [throttleIfNeeded, c4WitCfg]
        simp only [c4WitCalls]
        rw [hsleep]
        norm_num),
    (c4_amended c4WitCfg 0 c4WitCalls).2 (by decide) (by norm_num [c4WitCfg]) (by decide)
      (by
        refine ⟨le_refl 0, ?_, trivial⟩
        have hsleep : (throttleTokensIfNeeded c4WitCfg (0 : ℚ) [] 60).2 = 0 := by
          norm_num [throttleTokensIfNeeded, c4WitCfg, sortByTime, List.insertionSort,
            findTokenSleep]
        simp only [c4WitCalls]
        rw [hsleep]
        norm_num)⟩
